import Mathlib

/-!
# Verification of the storyboard-generation pipeline

Shallow embedding of the core algorithms of `scripts/generate_storyboards.py`
and `scripts/generate_scenes.py`:

* the entity detector (`detect_entities`, characters / settings / extras),
* the scene chunker (`extract_sections`, `divide_scene_into_storyboards`),
* the reference-image selector and updater
  (`find_character_reference_images`, `update_character_references`,
  the per-chunk reference-collection and de-duplication code in `main`),
* the era filter of the scene generator (`get_eras_from_settings`,
  `filter_characters_by_era`),
* the retry loop of the API client (`call_gemini`).

Python strings are modelled as `List Char` (`Str`); all texts handled by
these scripts are ASCII with `"\n"` line terminators, and the embedded
string primitives (`pyStrip`, `pySplitlines`, `pySplitNN`, ...) reproduce
the Python semantics for such strings.  Python dicts (which preserve
insertion order) are modelled as association lists.  All definitions are
executable and structurally recursive, so concrete runs reduce by `decide`.
-/

namespace StoryPipeline

/-- Python `str` modelled as a list of characters. -/
abbrev Str := List Char

/-- Convert a Lean string literal to the `Str` model. -/
def S (s : String) : Str := s.toList

/-- Python `str.lower()` (ASCII texts only). -/
def pyLower (s : Str) : Str := s.map Char.toLower

/-- Word character in the sense of the regex `\b` boundary: `[a-zA-Z0-9_]`. -/
def isWordChar (c : Char) : Bool := c.isAlphanum || c == '_'

/-- Python whitespace characters (`str.strip`/`str.split()` for ASCII text). -/
def isPyWs (c : Char) : Bool :=
  c == ' ' || c == '\t' || c == '\n' || c == '\r' || c == '\x0b' || c == '\x0c'

/-- Python `str.strip()`. -/
def pyStrip (s : Str) : Str :=
  ((s.dropWhile isPyWs).reverse.dropWhile isPyWs).reverse

/-- Substring test: Python `needle in haystack` for a nonempty needle. -/
def containsSub (hay needle : Str) : Bool :=
  match hay with
  | [] => needle.isEmpty
  | _ :: t => needle.isPrefixOf hay || containsSub t needle

/-- First index of a substring: Python `str.find` (only used when present). -/
def findSub (hay needle : Str) : Option Nat :=
  match hay with
  | [] => if needle.isEmpty then some 0 else none
  | _ :: t =>
    if needle.isPrefixOf hay then some 0
    else (findSub t needle).map (· + 1)

/-- Python slice `s[a:b]` for `0 ≤ a ≤ b` (both ends clamped to the length). -/
def slice (s : Str) (a b : Nat) : Str := (s.drop a).take (b - a)

/-- Python `str.split("\n")` (two-character separators are handled by
`pySplitNN` below; this one models the single-character separator). -/
def pySplitNL : Str → List Str
  | [] => [[]]
  | '\n' :: t => [] :: pySplitNL t
  | c :: t =>
    match pySplitNL t with
    | r :: rs => (c :: r) :: rs
    | [] => [[c]]

/-- Python `str.split("\n\n")`: left-to-right, non-overlapping. -/
def pySplitNN : Str → List Str
  | [] => [[]]
  | '\n' :: '\n' :: t => [] :: pySplitNN t
  | c :: t =>
    match pySplitNN t with
    | r :: rs => (c :: r) :: rs
    | [] => [[c]]

/-- Python `str.splitlines()` for texts whose only line terminator is `"\n"`
(the scene files produced and consumed by these scripts). -/
def pySplitlines (s : Str) : List Str :=
  if s = [] then []
  else
    let l := pySplitNL s
    if l.getLast? = some [] then l.dropLast else l

/-- Python `line.replace("## ", "")`: removes every (left-to-right,
non-overlapping) occurrence of the three-character header marker. -/
def pyReplaceHdr : Str → Str
  | '#' :: '#' :: ' ' :: t => pyReplaceHdr t
  | c :: t => c :: pyReplaceHdr t
  | [] => []

/-- Python `str.split()` (no argument): split on runs of whitespace,
dropping empty fields. -/
def pySplitWsGo (cur : Str) : Str → List Str
  | [] => if cur = [] then [] else [cur.reverse]
  | c :: t =>
    if isPyWs c then
      if cur = [] then pySplitWsGo [] t else cur.reverse :: pySplitWsGo [] t
    else pySplitWsGo (c :: cur) t

/-- Python `str.split()` (whitespace split, no empties). -/
def pySplitWs (s : Str) : List Str := pySplitWsGo [] s

/-- Model of `sep.join(parts)`. -/
def pyJoin (sep : Str) : List Str → Str
  | [] => []
  | [x] => x
  | x :: y :: rest => x ++ sep ++ pyJoin sep (y :: rest)

/-- Number of characters of `s` satisfying `p`
(models `len(re.findall(r'["\x27]', s))`). -/
def countQuoteChars (s : Str) : Nat :=
  (s.filter (fun c => c == '"' || c == '\'')).length

/-- Test whether the word-boundary pattern `\b<lit>\b` matches `s` at index `i`
(`lit` nonempty, as in every call site). -/
def wordMatchAt (s lit : Str) (i : Nat) : Bool :=
  lit.isPrefixOf (s.drop i) &&
  (match i with
   | 0 => true
   | j + 1 => !isWordChar (s.getD j ' ')) &&
  (decide (i + lit.length = s.length) || !isWordChar (s.getD (i + lit.length) ' '))

/-- Keep only non-overlapping matches (a scan that, after accepting a match,
skips past its end — `re.finditer` semantics for a literal pattern). -/
def nonOverlapping (len : Nat) : List Nat → Nat → List Nat
  | [], _ => []
  | i :: t, bound =>
    if bound ≤ i then i :: nonOverlapping len t (i + len)
    else nonOverlapping len t bound

/-- Model of `re.finditer` for the pattern `\b<lit>\b`: the list of
`(start, end)` spans of the non-overlapping word-boundary matches of the
literal `lit` in `s`. -/
def finditerWord (s lit : Str) : List (Nat × Nat) :=
  let candidates := (List.range (s.length + 1)).filter (fun i => wordMatchAt s lit i)
  (nonOverlapping lit.length candidates 0).map (fun i => (i, i + lit.length))

/-- Model of `re.search` for the pattern `\b<lit>\b`, as a Bool. -/
def wordSearch (s lit : Str) : Bool := !(finditerWord s lit).isEmpty

/-- End of a match of `ws` (literal words joined by `\s+`) starting exactly at
index `i` of `s`; `none` when there is no such match.  Since the words are
whitespace-free, the greedy `\s+` is deterministic. -/
def phraseMatchEnd (s : Str) : List Str → Nat → Option Nat
  | [], i => some i
  | [w], i => if w.isPrefixOf (s.drop i) then some (i + w.length) else none
  | w :: rest, i =>
    if w.isPrefixOf (s.drop i) then
      let j := i + w.length
      let wsLen := ((s.drop j).takeWhile isPyWs).length
      if wsLen = 0 then none else phraseMatchEnd s rest (j + wsLen)
    else none

/-- Whether `\b` holds just before index `i` (for a pattern starting with a word
character, the only case arising here: names are alphanumeric). -/
def boundaryBefore (s : Str) (i : Nat) : Bool :=
  match i with
  | 0 => true
  | j + 1 => !isWordChar (s.getD j ' ')

/-- Whether `\b` holds just after index `e` (for a pattern ending in a word char). -/
def boundaryAfter (s : Str) (e : Nat) : Bool :=
  decide (e = s.length) || !isWordChar (s.getD e ' ')

/-- Model of `re.search` for `\b w1 \s+ w2 ... \b`: span of the leftmost
match, if any. -/
def phraseSearch (s : Str) (ws : List Str) : Option (Nat × Nat) :=
  (List.range (s.length + 1)).findSome? (fun i =>
    if boundaryBefore s i then
      match phraseMatchEnd s ws i with
      | some e => if boundaryAfter s e then some (i, e) else none
      | none => none
    else none)

/-! Data model (`definitions.json`).

Characters, settings and extras as loaded by `load_definitions`.  Only the
fields read by the detector and the era filter are modelled (the free-text
`description` / `appearance` / `visual_details` / `role` fields are never
inspected by the embedded code paths).  A missing `era` is the empty
string, exactly as `char_data.get("era", "")` produces. -/

/-- A character record. -/
structure Character where
  name : Str
  aliases : List Str
  era : Str
deriving DecidableEq

/-- A setting record. -/
structure Setting where
  name : Str
  aliases : List Str
  era : Str
deriving DecidableEq

/-- An extra (non-character physical entity) record. -/
structure Extra where
  name : Str
  aliases : List Str
deriving DecidableEq

/-- The aggregate definitions store; Python dicts preserve insertion order,
modelled as association lists keyed by the internal key. -/
structure Definitions where
  characters : List (Str × Character)
  settings : List (Str × Setting)
  extras : List (Str × Extra)
deriving DecidableEq

/-! Entity detector (`detect_entities`, generate_storyboards.py 275-671). -/

/-- Map a list of Lean string literals into the `Str` model. -/
def SL (l : List String) : List Str := l.map S

/-- The double-quote character as a one-character string. -/
def dq : Str := ['"']

/-- The single-quote character as a one-character string. -/
def sq : Str := ['\'']

/-- Source list `action_verbs` (line 294; it contains duplicates, kept). -/
def actionVerbs : List Str := SL ["stood", "walked", "moved", "looked",
  "turned", "entered", "sat", "hailed", "said", "spoke", "reached",
  "watched", "felt", "stepped", "stepping", "was", "is", "did", "had",
  "found", "began", "stopped", "pulled", "reached", "stepped", "slumped",
  "sliding", "waiting", "began", "struggled", "calibrate", "seized",
  "leaving", "forcing", "exhaled", "swallowing", "adjust"]

/-- Pronoun context indicators (line 330). -/
def pronounsCtx : List Str := SL [" he ", " she ", " they ", " his ",
  " her ", " their "]

/-- The verb list of the `followed_by_verb` check (line 332). -/
def followedByVerbList : List Str := SL [" was ", " is ", " did ", " had ",
  " stood", " walked", " moved", " looked", " turned", " entered", " sat",
  " hailed", " said", " spoke"]

/-- Source set `common_words` of the character block (line 356). -/
def commonWordsChars : List Str := SL ["the", "of", "in", "a", "an", "and",
  "or", "to", "for", "with", "from", "on", "at", "by", "as", "is", "was",
  "are", "were", "be", "been", "being", "have", "has", "had", "do", "does",
  "did", "will", "would", "could", "should", "may", "might", "must", "can"]

/-- Speech-verb list of the last-resort character fallback (line 500). -/
def fallbackVerbs : List Str := SL [" said", " spoke", " asked", " replied",
  " stood", " walked", " moved"]

/-- Source list `reference_indicators` (lines 533-541; the source repeats this list
verbatim at lines 582-589 and 608-615). -/
def referenceIndicators : List Str := SL [" from ", "from the", " toward ",
  "toward the", " heading toward", " heading to", " leaving ", " behind ",
  " observing ", " no longer ", " height of the", " monuments of ",
  " decaying husk of ", " returning to ", " back to ", " going to ",
  " destination ", "heading toward the", "toward the decaying",
  " compared to ", "compared to the", " compared with ",
  "compared with the", " versus ", " vs ", " unlike ", " like the ",
  " similar to ", " clarity of the ", " of the ", " vacuum of the ",
  " sterile height of the "]

/-- Source list `positive_location_preps` (lines 556 and 625). -/
def positiveLocationPreps : List Str := SL [" at ", " in ", " inside ",
  " outside ", " within ", " on "]

/-- Source set `common_words` of the setting block (line 572). -/
def commonWordsSettings : List Str := SL ["the", "of", "in", "a", "an",
  "and", "or", "to", "for", "with", "from", "on", "at", "by", "as"]

/-- Section headers of the scene: the lowercased `## `-prefixed lines
(lines 288-291). -/
def sectionHeadersOf (sceneText : Str) : List Str :=
  (pySplitlines sceneText).filterMap (fun line =>
    if (S ("## ")).isPrefixOf line then some (pyLower line) else none)

/-- Visual-presence test for one whole-name match (lines 318-336): the
±50-char context contains an action verb, a quote character, or a personal
pronoun while the name is followed by a verb. -/
def charVisuallyPresentAt (sceneLower : Str) (m : Nat × Nat) : Bool :=
  let contextStart := m.1 - 50
  let context := slice sceneLower contextStart (m.2 + 50)
  let hasQuotes := containsSub context dq || containsSub context sq
  let hasPronouns := pronounsCtx.any (containsSub context)
  let followedByVerb := followedByVerbList.any (fun v =>
    v.isPrefixOf (slice context (m.2 - contextStart) (m.2 - contextStart + 20)))
  actionVerbs.any (containsSub context) || hasQuotes ||
    (hasPronouns && followedByVerb)

/-- First match of a significant word whose ±30-char context carries an
action verb or a quote (lines 366-377, with its inner `break`). -/
def firstActionMatch (sceneLower : Str) (word : Str) : Option (Nat × Nat) :=
  (finditerWord sceneLower word).find? (fun m =>
    let context := slice sceneLower (m.1 - 30) (m.2 + 30)
    actionVerbs.any (containsSub context) || containsSub context dq)

/-- Single significant word from a multi-word name: accepted only with
action/quote context and a capitalized source occurrence or nearby quote
(lines 396-451; the source also computes an `is_likely_compound` flag there
that it never reads, omitted). -/
def singleWordCapMatch (sceneText sceneLower : Str) (word : Str) : Bool :=
  (finditerWord sceneLower word).any (fun m =>
    let context := slice sceneLower (m.1 - 30) (m.2 + 30)
    let hasAction := actionVerbs.any (containsSub context) || containsSub context dq
    if hasAction then
      let originalMatch := slice sceneText m.1 m.2
      let isCapitalized := match originalMatch with
        | [] => false
        | c :: _ => c.isUpper
      let hasQuotes := containsSub context dq || containsSub context sq
      isCapitalized || hasQuotes
    else false)

/-- The multi-word character-name block (lines 352-486), entered when the
name splits into more than one word and no whole-name match succeeded.
Returns whether the block adds the character. -/
def multiWordCharAdd (sceneText sceneLower : Str) (nameLower : Str) : Bool :=
  let words := pySplitWs nameLower
  let significant := words.filter (fun w =>
    4 ≤ w.length && !(commonWordsChars.contains w))
  if 2 ≤ significant.length then
    let matchedWords := significant.filterMap (fun w =>
      (firstActionMatch sceneLower w).map (fun m => (w, m.1)))
    let prox : Bool :=
      if 2 ≤ matchedWords.length then
        let positions := matchedWords.map Prod.snd
        let mn := positions.min?.getD 0
        let mx := positions.max?.getD 0
        decide (mx - mn ≤ 100)
      else false
    if prox then true
    else if 1 ≤ matchedWords.length then
      singleWordCapMatch sceneText sceneLower (matchedWords.headD ([], 0)).1
    else false
  else if significant.length = 1 then
    let phraseWords := words.filter (fun w => !(commonWordsChars.contains w))
    match phraseSearch sceneLower phraseWords with
    | none =>
      (finditerWord sceneLower (significant.headD [])).any (fun m =>
        let context := slice sceneLower (m.1 - 30) (m.2 + 30)
        actionVerbs.any (containsSub context) || containsSub context dq)
    | some me =>
      let context := slice sceneLower (me.1 - 30) (me.2 + 30)
      actionVerbs.any (containsSub context) || containsSub context dq
  else false

/-- One iteration of the `for name in names_to_check` character loop
(lines 307-486): whether this name causes the character to be added. -/
def charNameMatched (sceneText sceneLower : Str) (name : Str) : Bool :=
  let nameLower := pyLower name
  let ms := finditerWord sceneLower nameLower
  if !ms.isEmpty && ms.any (charVisuallyPresentAt sceneLower) then true
  else if !ms.isEmpty && ms.any (fun m =>
      containsSub (slice sceneLower (m.1 - 20) (m.2 + 20)) dq) then true
  else if 2 ≤ (pySplitWs nameLower).length then
    multiWordCharAdd sceneText sceneLower nameLower
  else false

/-- Last-resort fallback (lines 489-503): a name of length ≥ 4 appearing
(as a plain substring) near a quote or a speech verb. -/
def charFallbackMatched (sceneLower : Str) (names : List Str) : Bool :=
  names.any (fun name =>
    4 ≤ name.length &&
    (let nameLower := pyLower name
     containsSub sceneLower nameLower &&
     (let idx := (findSub sceneLower nameLower).getD 0
      let context := slice sceneLower (idx - 30) (idx + nameLower.length + 30)
      containsSub context dq || fallbackVerbs.any (containsSub context))))

/-- Names checked for a character, `names_to_check` (lines 300-302): the dict key, the
`name` field, then the aliases. -/
def charNamesToCheck (key : Str) (c : Character) : List Str :=
  key :: c.name :: c.aliases

/-- Whether `detect_entities` reports this character. -/
def characterDetected (sceneText sceneLower : Str) (key : Str) (c : Character) : Bool :=
  (charNamesToCheck key c).any (fun name =>
    name ≠ [] && charNameMatched sceneText sceneLower name) ||
  charFallbackMatched sceneLower (charNamesToCheck key c)

/-- Append with the value-equality de-duplication of
`if data not in found: found.append(data)`. -/
def appendUnique {α} [DecidableEq α] (l : List α) (x : α) : List α :=
  if x ∈ l then l else l ++ [x]

/-- The reference-indicator exclusion for one whole-name setting match
(lines 526-545): ±60/40-char combined context contains a reference phrase. -/
def settingRefIndicatorAt (sceneLower : Str) (m : Nat × Nat) : Bool :=
  let before := slice sceneLower (m.1 - 60) m.1
  let after := slice sceneLower m.2 (m.2 + 40)
  let combined := before ++ [' '] ++ after
  referenceIndicators.any (containsSub combined)

/-- Actual-location test for one whole-name setting match (lines 524-560):
not a mere reference, and either named in a section header or carrying a
positive locative preposition in the ±30-char context. -/
def settingActualLocationAt (sceneLower : Str) (headers : List Str)
    (nameLower : Str) (m : Nat × Nat) : Bool :=
  if settingRefIndicatorAt sceneLower m then false
  else if headers.any (fun h => containsSub h nameLower) then true
  else
    let context := slice sceneLower (m.1 - 30) (m.2 + 30)
    positiveLocationPreps.any (containsSub context)

/-- Word-level setting matching (lines 595-647): a significant (≥ 4 chars,
non-stopword) component word, not in reference context, with a positive
preposition in the combined context or corroborated in a section header. -/
def settingWordAdd (sceneLower : Str) (headers : List Str) (nameLower : Str)
    (words : List Str) : Bool :=
  words.any (fun word =>
    4 ≤ word.length && !(commonWordsSettings.contains word) &&
    (finditerWord sceneLower word).any (fun m =>
      let before := slice sceneLower (m.1 - 60) m.1
      let after := slice sceneLower m.2 (m.2 + 40)
      let combined := before ++ [' '] ++ after
      if referenceIndicators.any (containsSub combined) then false
      else
        let hasPrep := positiveLocationPreps.any (containsSub combined)
        let inHeader :=
          5 ≤ word.length &&
          headers.any (fun h => containsSub h word &&
            containsSub combined word && containsSub combined nameLower)
        hasPrep || inHeader))

/-- One iteration of the setting name loop (lines 515-647). -/
def settingNameMatched (sceneLower : Str) (headers : List Str) (name : Str) : Bool :=
  let nameLower := pyLower name
  let ms := finditerWord sceneLower nameLower
  if ms.any (settingActualLocationAt sceneLower headers nameLower) then true
  else
    let fullNameWasReference := ms.any (settingRefIndicatorAt sceneLower)
    let words := pySplitWs nameLower
    if 2 ≤ words.length && !fullNameWasReference then
      settingWordAdd sceneLower headers nameLower words
    else false

/-- Names checked for a setting, `names_to_check` (lines 508-510). -/
def settingNamesToCheck (key : Str) (s : Setting) : List Str :=
  key :: s.name :: s.aliases

/-- Whether `detect_entities` reports this setting. -/
def settingDetected (sceneLower : Str) (headers : List Str) (key : Str)
    (s : Setting) : Bool :=
  (settingNamesToCheck key s).any (fun name =>
    name ≠ [] && settingNameMatched sceneLower headers name)

/-- Whether `detect_entities` reports this extra (lines 652-669: exact
whole-word name/alias match only). -/
def extraDetected (sceneLower : Str) (key : Str) (e : Extra) : Bool :=
  (key :: e.name :: e.aliases).any (fun name =>
    name ≠ [] && wordSearch sceneLower (pyLower name))

/-- Result of `detect_entities`. -/
structure DetectResult where
  characters : List Character
  settings : List Setting
  extras : List Extra
deriving DecidableEq

/-- Model of `detect_entities(scene_text, definitions)`
(generate_storyboards.py lines 275-671). -/
def detect_entities (sceneText : Str) (defs : Definitions) : DetectResult :=
  let sceneLower := pyLower sceneText
  let headers := sectionHeadersOf sceneText
  { characters := defs.characters.foldl (fun acc kc =>
      if characterDetected sceneText sceneLower kc.1 kc.2 then
        appendUnique acc kc.2
      else acc) []
    settings := defs.settings.foldl (fun acc ks =>
      if settingDetected sceneLower headers ks.1 ks.2 then
        appendUnique acc ks.2
      else acc) []
    extras := defs.extras.foldl (fun acc ke =>
      if extraDetected sceneLower ke.1 ke.2 then
        appendUnique acc ke.2
      else acc) [] }

/-! Scene chunker
(`extract_sections`, `divide_scene_into_storyboards`,
generate_storyboards.py lines 682-775) -/

/-- The newline as a one-character string. -/
def nlStr : Str := ['\n']

/-- The blank-line separator `"\n\n"`. -/
def nnStr : Str := ['\n', '\n']

/-- The section-header marker `"## "`. -/
def hdrMarker : Str := S ("## ")

/-- The accumulating loop of `extract_sections` (lines 687-697). -/
def extractSectionsGo (currentTitle : Option Str) (currentLines : List Str) :
    List Str → List (Str × Str)
  | [] =>
    match currentTitle with
    | some t => [(t, pyStrip (pyJoin nlStr currentLines))]
    | none => []
  | line :: rest =>
    if hdrMarker.isPrefixOf line then
      let newTitle := pyStrip (pyReplaceHdr line)
      match currentTitle with
      | some t =>
        (t, pyStrip (pyJoin nlStr currentLines)) ::
          extractSectionsGo (some newTitle) [] rest
      | none => extractSectionsGo (some newTitle) [] rest
    else extractSectionsGo currentTitle (currentLines ++ [line]) rest

/-- Model of `extract_sections(scene_text)` (lines 682-699): the `(title, body)`
pairs of the `## `-headed sections; text before the first header (or a
scene with no headers at all) yields nothing. -/
def extract_sections (sceneText : Str) : List (Str × Str) :=
  extractSectionsGo none [] (pySplitlines sceneText)

/-- Split a list into consecutive groups of `k` elements (fuel-based so
that it reduces definitionally; the fuel `l.length` is always sufficient
when `1 ≤ k`, the only case arising: the code takes `max(1, ...)`).
Models `for i in range(0, len(l), k): l[i:i+k]`. -/
def chunksOfGo {α : Type} (k : Nat) : Nat → List α → List (List α)
  | _, [] => []
  | 0, l => [l]
  | fuel + 1, l => l.take k :: chunksOfGo k fuel (l.drop k)

/-- Grouping into `k`-sized consecutive chunks. -/
def chunksOf {α : Type} (k : Nat) (l : List α) : List (List α) :=
  chunksOfGo k l.length l

/-- Group size `sections_per_storyboard` (lines 713-727): `max(1, n // max)`, forced
to 1 when some section is dialogue-heavy (≥ 3 quote characters) and
`n < max * 1.5`.  Sizes are naturals (`max_storyboards ≥ 1` in every run;
`n // max * 1.5` is compared via `2 * n < 3 * max`). -/
def sectionChunkSize (sections : List (Str × Str)) (maxStoryboards : Nat) : Nat :=
  let sps := max 1 (sections.length / maxStoryboards)
  let dialogHeavy := sections.any (fun tb => 3 ≤ countQuoteChars tb.2)
  if dialogHeavy && 2 * sections.length < 3 * maxStoryboards then 1 else sps

/-- The re-inserted text of one section inside a chunk (line 732):
`f"## {title}\n\n{body}"` with the braces filled in. -/
def sectionText (tb : Str × Str) : Str := hdrMarker ++ tb.1 ++ nnStr ++ tb.2

/-- Build one storyboard chunk from a group of sections (lines 730-733):
title of the first section, texts re-joined with re-inserted `## ` headers. -/
def buildSectionChunk (group : List (Str × Str)) : Str × Str :=
  ((group.head?.map Prod.fst).getD (S ("Scene")),
   pyJoin nnStr (group.map sectionText))

/-- The section-based grouping (lines 711-733). -/
def sectionStoryboards (sections : List (Str × Str)) (maxS : Nat) :
    List (Str × Str) :=
  (chunksOf (sectionChunkSize sections maxS) sections).map buildSectionChunk

/-- The lines a section contributes to its chunk text: its header line, a
blank line, then the lines of its body. -/
def secLines (tb : Str × Str) : List Str :=
  (hdrMarker ++ tb.1) :: [] :: pySplitNL tb.2

/-- The line sequence of a chunk built from a group of sections: the
sections' lines with one separating blank line between sections. -/
def chunkLines : List (Str × Str) → List Str
  | [] => []
  | [tb] => secLines tb
  | tb :: rest => secLines tb ++ [] :: chunkLines rest

/-- The lines a chunk contributes after its first header line: the first
section's blank line and body lines, then (when more sections follow) a
separating blank line and the remaining sections' lines. -/
def restLinesOf (tb : Str × Str) : List (Str × Str) → List Str
  | [] => [] :: pySplitNL tb.2
  | tb2 :: rest2 => (([] :: pySplitNL tb.2) ++ [[]]) ++ chunkLines (tb2 :: rest2)

/-- Well-formedness of an extracted section, as produced by scenes whose
body lines do not begin with the header marker: the title is stripped,
free of `## ` and of newlines, and the body is stripped with no line
starting in `## `.  Under these conditions re-inserting and re-extracting
headers is lossless. -/
def SectionWF (tb : Str × Str) : Prop :=
  pyStrip tb.1 = tb.1 ∧ pyReplaceHdr tb.1 = tb.1 ∧ '\n' ∉ tb.1 ∧
  pyStrip tb.2 = tb.2 ∧
  ∀ line ∈ pySplitNL tb.2, hdrMarker.isPrefixOf line = false

/-- Well-formedness of a section is decidable. -/
instance sectionWFDecidable (tb : Str × Str) : Decidable (SectionWF tb) :=
  inferInstanceAs (Decidable (pyStrip tb.1 = tb.1 ∧
    pyReplaceHdr tb.1 = tb.1 ∧ '\n' ∉ tb.1 ∧ pyStrip tb.2 = tb.2 ∧
    ∀ line ∈ pySplitNL tb.2, hdrMarker.isPrefixOf line = false))

/-- Paragraphs of a scene without headers (line 736): blank-line-delimited,
stripped, dropping empties and `#`-prefixed lines. -/
def paragraphsOf (sceneText : Str) : List Str :=
  (pySplitNN sceneText).filterMap (fun p =>
    let q := pyStrip p
    if q ≠ [] && !((S ("#")).isPrefixOf q) then some q else none)

/-- The paragraph-based grouping (lines 735-757). -/
def paragraphStoryboards (sceneText : Str) (maxS : Nat) : List (Str × Str) :=
  let paragraphs0 := paragraphsOf sceneText
  let paragraphs := if paragraphs0 = [] then [sceneText] else paragraphs0
  let totalDialog := (paragraphs.map countQuoteChars).sum
  let pps :=
    if 2 * paragraphs.length ≤ totalDialog then
      max 1 (paragraphs.length / (maxS + 1))
    else max 1 (paragraphs.length / maxS)
  (chunksOf pps paragraphs).enum.map (fun ig =>
    (S ("Part ") ++ S (toString (ig.1 + 1)), pyJoin nnStr ig.2))

/-- Bisection of one storyboard at its paragraph midpoint (lines 762-770). -/
def bisectStoryboard (tb : Str × Str) : List (Str × Str) :=
  let paragraphs := (pySplitNN tb.2).filterMap (fun p =>
    let q := pyStrip p
    if q ≠ [] then some q else none)
  if 1 < paragraphs.length then
    let mid := paragraphs.length / 2
    [(tb.1 ++ S (" (Part 1)"), pyJoin nnStr (paragraphs.take mid)),
     (tb.1 ++ S (" (Part 2)"), pyJoin nnStr (paragraphs.drop mid))]
  else [tb]

/-- The final min/max fix-up (lines 759-773): one bisection pass when below
the minimum, truncation of the excess trailing chunks when above the
maximum. -/
def applyMinMaxStoryboards (storyboards : List (Str × Str)) (minS maxS : Nat) :
    List (Str × Str) :=
  if storyboards.length < minS then
    ((storyboards.map bisectStoryboard).flatten).take maxS
  else if maxS < storyboards.length then storyboards.take maxS
  else storyboards

/-- Model of `divide_scene_into_storyboards(scene_text, min, max)` (lines 702-775). -/
def divide_scene_into_storyboards (sceneText : Str) (minS maxS : Nat) :
    List (Str × Str) :=
  let sections := extract_sections sceneText
  let storyboards :=
    if sections ≠ [] then sectionStoryboards sections maxS
    else paragraphStoryboards sceneText maxS
  applyMinMaxStoryboards storyboards minS maxS

/-! Era filter (generate_scenes.py lines 152-181). -/

/-- Model of `get_eras_from_settings(settings)` (generate_scenes.py 152-162): the
eras of the given setting records, lowercased, empty eras skipped.  The
Python `set` is modelled as a duplicate-free list (membership is all that
is ever used); the dict argument is passed as its value sequence. -/
def get_eras_from_settings (settings : List Setting) : List Str :=
  settings.foldl (fun eras s =>
    let era := pyLower s.era
    if era ≠ [] && !(eras.contains era) then eras ++ [era] else eras) []

/-- Model of `filter_characters_by_era(characters, allowed_eras)`
(generate_scenes.py 165-181). -/
def filter_characters_by_era (characters : List (Str × Character))
    (allowedEras : List Str) : List (Str × Character) :=
  if allowedEras = [] then characters
  else characters.filter (fun kc =>
    let charEra := pyLower kc.2.era
    charEra = [] || allowedEras.contains charEra)

/-! Per-chunk entity lists used for prompt construction
(generate_storyboards.py main, lines 2092-2123) -/

/-- Pronoun patterns of the main-loop character fallback (line 2103). -/
def mainFallbackPronouns : List Str := SL ["he", "she", "they", "his",
  "her", "their", "him"]

/-- Action-verb list of the main-loop character fallback (line 2105). -/
def mainFallbackActionVerbs : List Str := SL ["stood", "walked", "moved",
  "looked", "turned", "entered", "sat", "hailed", "said", "spoke",
  "reached", "watched", "felt", "stepped", "stopped", "pulled", "slumped",
  "sliding", "waiting", "began", "struggled", "calibrate", "seized",
  "leaving", "forcing", "exhaled", "swallowing", "adjust", "intensified",
  "vibrated", "was", "is", "did", "had"]

/-- The chunk's present-character list as passed to `build_prompt`
(lines 2092-2110): the detector's output, with the scene-level characters
carried in when the chunk names nobody but contains pronouns and action
verbs.  No era filtering is applied anywhere on this path. -/
def chunkPresentCharacters (sceneCharacters : List Character)
    (chunkText : Str) (defs : Definitions) : List Character :=
  let chunkCharacters := (detect_entities chunkText defs).characters
  if chunkCharacters = [] && sceneCharacters ≠ [] then
    let chunkLower := pyLower chunkText
    let hasPronouns := mainFallbackPronouns.any (wordSearch chunkLower)
    let hasActions := mainFallbackActionVerbs.any (containsSub chunkLower)
    if hasPronouns && hasActions then sceneCharacters else chunkCharacters
  else chunkCharacters

/-- The chunk's present-setting list as passed to `build_prompt`
(lines 2112-2123): the detector's output, with the scene's most recent
setting carried over when the chunk detects none and opens no new header. -/
def chunkPresentSettings (sceneSettings : List Setting) (chunkText : Str)
    (defs : Definitions) : List Setting :=
  let chunkSettings := (detect_entities chunkText defs).settings
  if chunkSettings = [] && sceneSettings ≠ [] then
    let chunkLines := pySplitlines (pyStrip chunkText)
    let hasNewHeader := match chunkLines with
      | [] => false
      | l :: _ => hdrMarker.isPrefixOf l
    if !hasNewHeader then sceneSettings.drop (sceneSettings.length - 1)
    else chunkSettings
  else chunkSettings

/-! Reference-image selection and update
(generate_storyboards.py lines 191-272 and main lines 2130-2323).
File-system queries are abstracted by an `isFile` predicate and the
process working directory `cwd`; `os.path.abspath` / `os.path.relpath`
are modelled for the dot-free paths these runs produce. -/

/-- Model of `os.path.basename`. -/
def pathBasename (p : Str) : Str := (p.reverse.takeWhile (· ≠ '/')).reverse

/-- Model of `os.path.isabs`. -/
def isAbsPath (p : Str) : Bool :=
  match p with
  | '/' :: _ => true
  | _ => false

/-- Model of `os.path.join(a, b)` for POSIX paths. -/
def pyJoinPath (a b : Str) : Str :=
  if isAbsPath b then b
  else if a = [] then b
  else if a.getLast? = some '/' then a ++ b
  else a ++ ('/' :: b)

/-- Model of `os.path.abspath` (no `.`/`..` components occur in the modelled runs,
so normalization is the identity). -/
def pyAbspath (cwd p : Str) : Str :=
  if isAbsPath p then p else pyJoinPath cwd p

/-- Split a path on `'/'`. -/
def pySplitSlash : Str → List Str
  | [] => [[]]
  | '/' :: t => [] :: pySplitSlash t
  | c :: t =>
    match pySplitSlash t with
    | r :: rs => (c :: r) :: rs
    | [] => [[c]]

/-- Length of the longest common prefix of two lists. -/
def commonPrefixLen {α : Type} [DecidableEq α] : List α → List α → Nat
  | a :: as', b :: bs => if a = b then commonPrefixLen as' bs + 1 else 0
  | _, _ => 0

/-- Model of `os.path.relpath(p, start)` (POSIX, relative to the working dir `cwd`). -/
def pyRelpath (cwd p start : Str) : Str :=
  let pl := (pySplitSlash (pyAbspath cwd p)).filter (· ≠ [])
  let sl := (pySplitSlash (pyAbspath cwd start)).filter (· ≠ [])
  let i := commonPrefixLen pl sl
  let relList := List.replicate (sl.length - i) (S ("..")) ++ pl.drop i
  if relList = [] then S (".") else pyJoin (S ("/")) relList

/-- The path stored by `update_character_references` (lines 263-267):
relative to `output_dir` when absolute, verbatim otherwise. -/
def relativizePath (cwd imagePath outputDir : Str) : Str :=
  if isAbsPath imagePath then pyRelpath cwd imagePath outputDir else imagePath

/-- Ordered-dict lookup. -/
def alistLookup {β : Type} (k : Str) : List (Str × β) → Option β
  | [] => none
  | (k', v) :: t => if k' = k then some v else alistLookup k t

/-- Ordered-dict assignment: replace in place, else append (Python dicts
preserve insertion order). -/
def alistSet {β : Type} (k : Str) (v : β) : List (Str × β) → List (Str × β)
  | [] => [(k, v)]
  | (k', v') :: t => if k' = k then (k, v) :: t else (k', v') :: alistSet k v t

/-- Model of `update_character_references(references, name, image_path, output_dir)`
(lines 253-272): ensure the entry exists, then push the relativized path to
the front and cap at 10 — but only when it is not already present. -/
def update_character_references (cwd : Str)
    (characterReferences : List (Str × List Str))
    (characterName imagePath outputDir : Str) : List (Str × List Str) :=
  let refs := match alistLookup characterName characterReferences with
    | none => characterReferences ++ [(characterName, [])]
    | some _ => characterReferences
  let relPath := relativizePath cwd imagePath outputDir
  let current := (alistLookup characterName refs).getD []
  if current.contains relPath then refs
  else alistSet characterName ((relPath :: current).take 10) refs

/-- Canonical reference image: basename starts with `ref-` (lines 213-214). -/
def isCanonicalRefName (p : Str) : Bool :=
  (S ("ref-")).isPrefixOf (pyLower (pathBasename p))

/-- The three-step resolution of a stored reference path (lines 230-243):
output dir, then working dir, then script root. -/
def resolveReferencePath (isFile : Str → Bool) (cwd scriptRoot outputDir : Str)
    (refPath : Str) : Str :=
  if isAbsPath refPath then refPath
  else
    let f1 := pyJoinPath outputDir refPath
    if isFile f1 then f1
    else
      let f2 := pyJoinPath cwd refPath
      if isFile f2 then f2 else pyJoinPath scriptRoot refPath

/-- Model of `find_character_reference_images(name, references, output_dir, max)`
(lines 191-250): canonical `ref-` image first (at most one), then stored
storyboard images up to `max`, each resolved and kept only if on disk,
returned as absolute paths. -/
def find_character_reference_images (isFile : Str → Bool)
    (cwd scriptRoot : Str) (characterName : Str)
    (characterReferences : List (Str × List Str)) (outputDir : Str)
    (maxReferences : Nat) : List Str :=
  match alistLookup characterName characterReferences with
  | none => []
  | some referencePaths =>
    let refImages := referencePaths.filter isCanonicalRefName
    let storyboardImages := referencePaths.filter (fun p => !isCanonicalRefName p)
    let prioritized := refImages.take 1 ++
      storyboardImages.take (maxReferences - (refImages.take 1).length)
    prioritized.filterMap (fun p =>
      let fullPath := resolveReferencePath isFile cwd scriptRoot outputDir p
      if isFile fullPath then some (pyAbspath cwd fullPath) else none)

/-- The per-character selection of main (lines 2135-2152): at most one
image when a canonical `ref-` image is stored, otherwise up to two. -/
def selectCharacterReferences (isFile : Str → Bool) (cwd scriptRoot : Str)
    (characterReferences : List (Str × List Str)) (outputDir : Str)
    (charName : Str) : List Str :=
  if charName = [] then []
  else
    let hasCanonical := match alistLookup charName characterReferences with
      | some ps => ps.any isCanonicalRefName
      | none => false
    let maxRefs := if hasCanonical then 1 else 2
    find_character_reference_images isFile cwd scriptRoot charName
      characterReferences outputDir maxRefs

/-- The per-extra selection of main (lines 2155-2182); note: unlike the
character branch, resolved paths are appended as-is, NOT made absolute. -/
def selectExtraReferences (isFile : Str → Bool) (cwd : Str)
    (extraReferences : List (Str × List Str)) (outputDir : Str)
    (extraName : Str) : List Str :=
  if extraName = [] then []
  else match alistLookup extraName extraReferences with
  | none => []
  | some refPaths =>
    let isCanon := fun (p : Str) =>
      (S ("ref-extra-")).isPrefixOf (pyLower (pathBasename p))
    let refImages := refPaths.filter isCanon
    let storyboardImages := refPaths.filter (fun p => !isCanon p)
    let prioritized := refImages.take 1 ++
      storyboardImages.take (2 - (refImages.take 1).length)
    prioritized.filterMap (fun p =>
      let fullPath :=
        if isAbsPath p then p
        else
          let f1 := pyJoinPath outputDir p
          if isFile f1 then f1 else pyJoinPath cwd p
      if isFile fullPath then some fullPath else none)

/-- The per-setting selection of main (lines 2185-2208): first indoor and
first outdoor stored reference, resolved, appended as-is. -/
def selectSettingReferences (isFile : Str → Bool) (cwd : Str)
    (settingReferences : List (Str × (List Str × List Str)))
    (outputDir : Str) (settingName : Str) : List Str :=
  if settingName = [] then []
  else match alistLookup settingName settingReferences with
  | none => []
  | some refs =>
    let resolve := fun (p : Str) =>
      let fullPath :=
        if isAbsPath p then p
        else
          let f1 := pyJoinPath outputDir p
          if isFile f1 then f1 else pyJoinPath cwd p
      if isFile fullPath then some fullPath else none
    (refs.1.take 1).filterMap resolve ++ (refs.2.take 1).filterMap resolve

/-- The order-preserving de-duplication of main (lines 2218-2225):
first occurrence of each path string wins. -/
def dedupPreservingOrderGo (seen : List Str) : List Str → List Str
  | [] => []
  | p :: t =>
    if seen.contains p then dedupPreservingOrderGo seen t
    else p :: dedupPreservingOrderGo (p :: seen) t

/-- The list `reference_images` de-duplicated, order preserved (lines 2218-2225). -/
def dedupPreservingOrder (l : List Str) : List Str :=
  dedupPreservingOrderGo [] l

/-- The three reference caches of a run. -/
structure RefState where
  characterReferences : List (Str × List Str)
  extraReferences : List (Str × List Str)
  settingReferences : List (Str × (List Str × List Str))
deriving DecidableEq

/-- The full reference-image collection for one chunk (lines 2130-2225):
characters, extras, settings, master style, then de-duplication. -/
def collectReferenceImages (isFile : Str → Bool)
    (cwd scriptRoot outputDir : Str) (state : RefState)
    (styleReferencePath : Option Str) (chunkCharacters : List Character)
    (chunkExtras : List Extra) (chunkSettings : List Setting) : List Str :=
  let charRefs := chunkCharacters.foldl (fun acc c =>
    acc ++ selectCharacterReferences isFile cwd scriptRoot
      state.characterReferences outputDir c.name) []
  let withExtras := chunkExtras.foldl (fun acc e =>
    acc ++ selectExtraReferences isFile cwd state.extraReferences outputDir
      e.name) charRefs
  let withSettings := chunkSettings.foldl (fun acc s =>
    acc ++ selectSettingReferences isFile cwd state.settingReferences
      outputDir s.name) withExtras
  let withStyle := match styleReferencePath with
    | some sp =>
      let spAbs := pyAbspath cwd sp
      if isFile spAbs then withSettings ++ [spAbs] else withSettings
    | none => withSettings
  dedupPreservingOrder withStyle

/-- The reference-cache update of the success path of one chunk
(main lines 2302-2323): every character detected in the chunk gets the new
output path pushed into its list; the extra and setting caches are not
touched by this path. -/
def mainChunkSuccessUpdate (cwd outputDir outputPath : Str)
    (chunkCharacters : List Character) (state : RefState) : RefState :=
  { state with characterReferences :=
      chunkCharacters.foldl (fun refs c =>
        if c.name ≠ [] then
          update_character_references cwd refs c.name outputPath outputDir
        else refs) state.characterReferences }

/-! Retrying API client (`call_gemini`, lines 1666-1736). -/

/-- Outcome of one HTTP request: success, or an `HTTPError` with a status
code and an optional parsed `Retry-After` header. -/
inductive ApiOutcome where
  | success : ApiOutcome
  | httpError : Nat → Option ℚ → ApiOutcome
deriving DecidableEq

/-- Result of the retry loop: the answering attempt index and the sequence
of back-off sleeps, or the raised status code. -/
inductive CallResult where
  | ok : Nat → List ℚ → CallResult
  | raised : Nat → Nat → List ℚ → CallResult
deriving DecidableEq

/-- The sleep before retry number `attempt + 1` (lines 1726-1734):
the server-provided `Retry-After` when present, else
`retry_base * 2 ** attempt`.  Delays are modelled as rationals (the values
`base * 2^n` for small `n` are exact in the source's floats). -/
def backoffDelay (retryAfter : Option ℚ) (retryBase : ℚ) (attempt : Nat) : ℚ :=
  match retryAfter with
  | some t => t
  | none => retryBase * 2 ^ attempt

/-- The retry loop (lines 1714-1736), driven by the stream `responses` of
per-attempt outcomes; `remaining = max_retries - attempt` throughout, so
`remaining = 0` is exactly the `attempt >= max_retries` cap. -/
def callGeminiGo (responses : Nat → ApiOutcome) (retryBase : ℚ) :
    Nat → Nat → List ℚ → CallResult
  | remaining, attempt, delays =>
    match responses attempt with
    | .success => .ok attempt delays.reverse
    | .httpError code ra =>
      match remaining with
      | 0 => .raised code attempt delays.reverse
      | r + 1 =>
        if code ≠ 429 then .raised code attempt delays.reverse
        else callGeminiGo responses retryBase r (attempt + 1)
          (backoffDelay ra retryBase attempt :: delays)

/-- Model of the `call_gemini(...)` retry behaviour as a function of the outcome
stream. -/
def call_gemini (responses : Nat → ApiOutcome) (maxRetries : Nat)
    (retryBase : ℚ) : CallResult :=
  callGeminiGo responses retryBase maxRetries 0 []

/-- Default of the `--max-retries` flag (line 1801). -/
def DEFAULT_MAX_RETRIES : Nat := 5

/-- Default of the `--retry-base` flag, in seconds (line 1802). -/
def DEFAULT_RETRY_BASE : ℚ := 5

/-- The per-chunk processing loop of main (lines 2088-2332): each chunk's
work either succeeds, updating the run state, or raises, in which case the
`except` handlers log the error and the loop continues with the next
chunk.  Returns the final state and one logged outcome per chunk. -/
def runChunksLoop {σ α : Type} (step : σ → α → Except Nat σ) (init : σ)
    (chunks : List α) : σ × List (Option Nat) :=
  chunks.foldl (fun acc c =>
    match step acc.1 c with
    | .ok s => (s, acc.2 ++ [none])
    | .error e => (acc.1, acc.2 ++ [some e])) (init, [])

/-- The retry-after field of an outcome fed to `backoffDelay`; used to state
the expected sleep sequence of a run of `call_gemini`. -/
def outcomeBackoff (o : ApiOutcome) (base : ℚ) (i : Nat) : ℚ :=
  match o with
  | .httpError _ ra => backoffDelay ra base i
  | .success => 0

/-- The sleeps a run of `call_gemini` performs while retrying through the
first `k` outcomes. -/
def expectedDelays (responses : Nat → ApiOutcome) (base : ℚ) (k : Nat) :
    List ℚ :=
  (List.range k).map (fun i => outcomeBackoff (responses i) base i)

/-! Concrete fixtures used by the counterexamples and witnesses below. -/

/-- A character with no era tag, named Mary. -/
def maryChar : Character := { name := S ("Mary"), aliases := [], era := [] }

/-- Definitions store holding only Mary. -/
def maryDefs : Definitions :=
  { characters := [(S ("mary"), maryChar)], settings := [], extras := [] }

/-- First test text of the spec: Mary acting and speaking. -/
def maryText1 : Str := S ("Mary stood at the well and said, \"I am thirsty.\"")

/-- Second test text of the spec: Mary only mentioned in narration. -/
def maryText2 : Str := S ("Mary's hometown was famous for its well.")

/-- A character tagged with the biblical era. -/
def joelChar : Character :=
  { name := S ("Joel"), aliases := [], era := S ("biblical") }

/-- A present-day setting. -/
def opsFloorSetting : Setting :=
  { name := S ("Operations Floor"), aliases := [], era := S ("present-day") }

/-- Definitions with a biblical character and a present-day setting. -/
def c1Defs : Definitions :=
  { characters := [(S ("joel"), joelChar)]
    settings := [(S ("operations floor"), opsFloorSetting)]
    extras := [] }

/-- A chunk whose section header names the present-day setting while the
biblical-era character acts and speaks in it. -/
def c1ChunkText : Str :=
  S ("## Operations Floor\n\nJoel stood at the console and said, \"Run it.\"")

/-- A one-section scene (its single body paragraph cannot be bisected into
four chunks). -/
def c4Scene : Str := S ("## A\n\nHello.")

/-- A thirteen-section scene: grouping by two gives seven chunks, which the
code truncates to six, silently dropping the thirteenth section. -/
def c5Scene : Str :=
  S ("## S1\n\nB1\n\n## S2\n\nB2\n\n## S3\n\nB3\n\n## S4\n\nB4\n\n## S5\n\nB5\n\n## S6\n\nB6\n\n## S7\n\nB7\n\n## S8\n\nB8\n\n## S9\n\nB9\n\n## S10\n\nB10\n\n## S11\n\nB11\n\n## S12\n\nB12\n\n## S13\n\nB13")

/-- A five-section scene whose grouping lands inside the default band. -/
def c5GoodScene : Str :=
  S ("## A\n\nBody a.\n\n## B\n\nBody b.\n\n## C\n\nBody c.\n\n## D\n\nBody d.\n\n## E\n\nBody e.")

/-- A character reference map for Joel holding one canonical image and five
stored storyboard images. -/
def c3CharRefs : List (Str × List Str) :=
  [(S ("Joel"), [S ("ref-joel.png"), S ("a.png"), S ("b.png"),
    S ("c.png"), S ("d.png"), S ("e.png")])]

/-- An extra named Lamp. -/
def lampExtra : Extra := { name := S ("Lamp"), aliases := [] }

/-- Definitions with the character Joel (no era) and the extra Lamp. -/
def c6Defs : Definitions :=
  { characters := [(S ("joel"), { name := S ("Joel"), aliases := [], era := [] })]
    settings := []
    extras := [(S ("lamp"), lampExtra)] }

/-- A chunk in which both Joel and the lamp are detected. -/
def c6ChunkText : Str := S ("Joel lifted the lamp and said, \"Here.\"")

/-- Reference caches before a successful generation: Joel and the Lamp each
hold one prior image. -/
def c6State : RefState :=
  { characterReferences := [(S ("Joel"), [S ("x.png")])]
    extraReferences := [(S ("Lamp"), [S ("old.png")])]
    settingReferences := [] }

/-- Reference caches in which the same storyboard file `img.png` is stored
both for the character Joel and for the extra Lamp. -/
def c8State : RefState :=
  { characterReferences := [(S ("Joel"), [S ("img.png")])]
    extraReferences := [(S ("Lamp"), [S ("img.png")])]
    settingReferences := [] }

/-- An outcome stream answering two rate limits (the second with a
Retry-After header) and then a server error. -/
def c7Responses : Nat → ApiOutcome := fun j =>
  if j = 0 then .httpError 429 none
  else if j = 1 then .httpError 429 (some 7)
  else .httpError 500 none

/-! Theorems.  One theorem (plus counterexample/witness where applicable)
per claim, preceded by shared helper lemmas. -/

/-- C2 (counterexample).  The claim states that for
`Mary's hometown was famous for its well.` the detector does not report
Mary present; in fact it does: the ±50-character context of the match
contains the listed action verb `was`, and the possessive apostrophe also
satisfies the quote-character test, so `detect_entities` returns Mary. -/
theorem C2_counterexample :
    (detect_entities maryText2 maryDefs).characters = [maryChar] ∧
    maryChar ∈ (detect_entities maryText2 maryDefs).characters := by
  constructor
  · decide
  · decide

/-- C2 (amended).  Detection reports Mary present in BOTH texts: in
`Mary stood at the well and said, "I am thirsty."` via the action verb
`stood` and the quotation marks, and in
`Mary's hometown was famous for its well.` because the ±50-character
context contains the listed be-verb `was` and the possessive apostrophe
counts as a quote character. -/
theorem C2_detection_both_texts :
    (detect_entities maryText1 maryDefs).characters = [maryChar] ∧
    (detect_entities maryText2 maryDefs).characters = [maryChar] := by
  constructor
  · decide
  · decide

/-! Association-list lemmas shared by the reference-cache claims. -/

theorem alistLookup_append_self {β : Type} (k : Str) (l : List (Str × β))
    (v : β) (h : alistLookup k l = none) :
    alistLookup k (l ++ [(k, v)]) = some v := by
  induction l with
  | nil => simp [alistLookup]
  | cons hd t ih =>
    obtain ⟨k1, v1⟩ := hd
    by_cases hk : k1 = k
    · simp [alistLookup, hk] at h
    · simp only [alistLookup, hk, if_false, List.cons_append] at h ⊢
      exact ih h

theorem alistLookup_append_other {β : Type} (k k' : Str)
    (l : List (Str × β)) (v : β) (hk : k' ≠ k) :
    alistLookup k (l ++ [(k', v)]) = alistLookup k l := by
  induction l with
  | nil => simp [alistLookup, hk]
  | cons hd t ih =>
    obtain ⟨k1, v1⟩ := hd
    by_cases h1 : k1 = k
    · simp [alistLookup, h1]
    · simp only [List.cons_append, alistLookup, h1, if_false]
      exact ih

theorem alistLookup_alistSet_self {β : Type} (k : Str) (v : β)
    (l : List (Str × β)) : alistLookup k (alistSet k v l) = some v := by
  induction l with
  | nil => simp [alistSet, alistLookup]
  | cons hd t ih =>
    obtain ⟨k1, v1⟩ := hd
    by_cases h1 : k1 = k
    · simp [alistSet, alistLookup, h1]
    · simp only [alistSet, h1, if_false, alistLookup]
      exact ih

theorem alistLookup_alistSet_other {β : Type} (k k' : Str) (v : β)
    (l : List (Str × β)) (hk : k' ≠ k) :
    alistLookup k (alistSet k' v l) = alistLookup k l := by
  induction l with
  | nil => simp [alistSet, alistLookup, hk]
  | cons hd t ih =>
    obtain ⟨k1, v1⟩ := hd
    by_cases h1 : k1 = k'
    · subst h1
      simp [alistSet, alistLookup, hk]
    · by_cases h2 : k1 = k
      · simp [alistSet, alistLookup, h1, h2, Ne.symm hk]
      · simp only [alistSet, h1, if_false, alistLookup, h2]
        exact ih

theorem alistSet_mem {β : Type} (k : Str) (v : β) (l : List (Str × β))
    (kv : Str × β) (h : kv ∈ alistSet k v l) : kv = (k, v) ∨ kv ∈ l := by
  induction l with
  | nil => simp [alistSet] at h; simp [h]
  | cons hd t ih =>
    obtain ⟨k1, v1⟩ := hd
    by_cases h1 : k1 = k
    · simp only [alistSet, h1, if_true, List.mem_cons] at h
      rcases h with h | h
      · exact Or.inl h
      · exact Or.inr (List.mem_cons_of_mem _ h)
    · simp only [alistSet, h1, if_false, List.mem_cons] at h
      rcases h with h | h
      · exact Or.inr (h ▸ List.mem_cons_self _ _)
      · rcases ih h with h' | h'
        · exact Or.inl h'
        · exact Or.inr (List.mem_cons_of_mem _ h')

theorem alistLookup_some_mem {β : Type} (k : Str) (l : List (Str × β))
    (v : β) (h : alistLookup k l = some v) : (k, v) ∈ l := by
  induction l with
  | nil => simp [alistLookup] at h
  | cons hd t ih =>
    obtain ⟨k1, v1⟩ := hd
    by_cases h1 : k1 = k
    · simp only [alistLookup, h1, if_true, Option.some.injEq] at h
      subst h1
      subst h
      exact List.mem_cons_self _ _
    · simp only [alistLookup, h1, if_false] at h
      exact List.mem_cons_of_mem _ (ih h)

theorem contains_eq_true_iff_mem (l : List Str) (x : Str) :
    l.contains x = true ↔ x ∈ l := by
  simp [List.contains, List.elem_iff]

/-- C10.  `update_character_references` preserves the per-character
invariant (duplicate-free lists of length at most 10), and when the
relativized image path is already stored for the character the whole
reference map is returned unchanged — in particular the existing entry is
not moved to the front. -/
theorem C10_update_character_references_invariant
    (cwd : Str) (refs : List (Str × List Str))
    (name imagePath outputDir : Str)
    (hinv : ∀ kv ∈ refs, List.Nodup kv.2 ∧ kv.2.length ≤ 10) :
    (∀ kv ∈ update_character_references cwd refs name imagePath outputDir,
       List.Nodup kv.2 ∧ kv.2.length ≤ 10) ∧
    (∀ l, alistLookup name refs = some l →
       relativizePath cwd imagePath outputDir ∈ l →
       update_character_references cwd refs name imagePath outputDir = refs) := by
  constructor
  · intro kv hkv
    cases h : alistLookup name refs with
    | none =>
      simp only [update_character_references, h,
        alistLookup_append_self name refs [] h, Option.getD_some,
        List.contains, List.elem_nil, Bool.false_eq_true, if_false] at hkv
      rcases alistSet_mem _ _ _ _ hkv with heq | hmem
      · subst heq
        exact ⟨by simp, by simp⟩
      · rcases List.mem_append.1 hmem with hl | hr
        · exact hinv kv hl
        · simp only [List.mem_singleton] at hr
          subst hr
          exact ⟨List.nodup_nil, by simp⟩
    | some l =>
      simp only [update_character_references, h, Option.getD_some] at hkv
      have hl := hinv (name, l) (alistLookup_some_mem name refs l h)
      by_cases hc : l.contains (relativizePath cwd imagePath outputDir) = true
      · rw [if_pos hc] at hkv
        exact hinv kv hkv
      · rw [if_neg hc] at hkv
        rcases alistSet_mem _ _ _ _ hkv with heq | hmem
        · subst heq
          have hnotmem : relativizePath cwd imagePath outputDir ∉ l := by
            intro hm
            exact hc ((contains_eq_true_iff_mem l _).2 hm)
          refine ⟨?_, List.length_take_le 10 _⟩
          exact List.Sublist.nodup (List.take_sublist 10 _)
            (List.nodup_cons.2 ⟨hnotmem, hl.1⟩)
        · exact hinv kv hmem
  · intro l h hmem
    simp only [update_character_references, h, Option.getD_some]
    rw [if_pos ((contains_eq_true_iff_mem l _).2 hmem)]

/-- C10 (witness): a concrete call on a one-entry map. -/
theorem C10_witness :
    (∀ kv ∈ update_character_references (S ("/w"))
        [(S ("Joel"), [S ("a.png")])] (S ("Joel")) (S ("boards/b.png"))
        (S ("boards")),
       List.Nodup kv.2 ∧ kv.2.length ≤ 10) ∧
    (∀ l, alistLookup (S ("Joel")) [(S ("Joel"), [S ("a.png")])] = some l →
       relativizePath (S ("/w")) (S ("boards/b.png")) (S ("boards")) ∈ l →
       update_character_references (S ("/w")) [(S ("Joel"), [S ("a.png")])]
         (S ("Joel")) (S ("boards/b.png")) (S ("boards"))
         = [(S ("Joel"), [S ("a.png")])]) :=
  C10_update_character_references_invariant (S ("/w"))
    [(S ("Joel"), [S ("a.png")])] (S ("Joel")) (S ("boards/b.png"))
    (S ("boards")) (by decide)

/-! De-duplication lemmas for C8. -/

theorem dedupGo_mem (seen : List Str) (l : List Str) (x : Str) :
    x ∈ dedupPreservingOrderGo seen l ↔ x ∈ l ∧ x ∉ seen := by
  induction l generalizing seen with
  | nil => simp [dedupPreservingOrderGo]
  | cons p t ih =>
    by_cases hp : seen.contains p = true
    · simp only [dedupPreservingOrderGo, hp, if_true]
      rw [ih]
      constructor
      · rintro ⟨hx, hs⟩
        exact ⟨List.mem_cons_of_mem _ hx, hs⟩
      · rintro ⟨hx, hs⟩
        rcases List.mem_cons.1 hx with rfl | hx
        · exact absurd ((contains_eq_true_iff_mem seen x).1 hp) hs
        · exact ⟨hx, hs⟩
    · simp only [dedupPreservingOrderGo, hp, if_false]
      constructor
      · intro hx
        rcases List.mem_cons.1 hx with rfl | hx
        · refine ⟨List.mem_cons_self _ _, ?_⟩
          intro hs
          exact hp ((contains_eq_true_iff_mem seen x).2 hs)
        · rw [ih] at hx
          refine ⟨List.mem_cons_of_mem _ hx.1, ?_⟩
          intro hs
          exact hx.2 (List.mem_cons_of_mem _ hs)
      · rintro ⟨hx, hs⟩
        rcases List.mem_cons.1 hx with rfl | hx
        · exact List.mem_cons_self _ _
        · by_cases hxp : x = p
          · subst hxp
            exact List.mem_cons_self _ _
          · refine List.mem_cons_of_mem _ ?_
            rw [ih]
            refine ⟨hx, ?_⟩
            intro hmem
            rcases List.mem_cons.1 hmem with h | h
            · exact hxp h
            · exact hs h

theorem dedupGo_sublist (seen : List Str) (l : List Str) :
    (dedupPreservingOrderGo seen l).Sublist l := by
  induction l generalizing seen with
  | nil => simp [dedupPreservingOrderGo]
  | cons p t ih =>
    by_cases hp : seen.contains p = true
    · simp only [dedupPreservingOrderGo, hp, if_true]
      exact List.Sublist.cons p (ih seen)
    · simp only [dedupPreservingOrderGo, hp, if_false]
      exact List.Sublist.cons₂ p (ih (p :: seen))

theorem dedupGo_nodup (seen : List Str) (l : List Str) :
    (dedupPreservingOrderGo seen l).Nodup := by
  induction l generalizing seen with
  | nil => simp [dedupPreservingOrderGo]
  | cons p t ih =>
    by_cases hp : seen.contains p = true
    · simp only [dedupPreservingOrderGo, hp, if_true]
      exact ih seen
    · simp only [dedupPreservingOrderGo, hp, if_false]
      refine List.nodup_cons.2 ⟨?_, ih (p :: seen)⟩
      intro hmem
      exact ((dedupGo_mem _ _ _).1 hmem).2 (List.mem_cons_self _ _)

/-- C8 (amended).  The attached-image list is de-duplicated by EXACT path
string (not by resolved absolute path), order-preserving: the result has
no duplicate strings, is a sublist of the input (first occurrences kept in
their original relative order), and contains exactly the strings of the
input. -/
theorem C8_dedup_by_string_order_preserving (l : List Str) :
    (dedupPreservingOrder l).Nodup ∧
    (dedupPreservingOrder l).Sublist l ∧
    (∀ x, x ∈ dedupPreservingOrder l ↔ x ∈ l) := by
  refine ⟨dedupGo_nodup [] l, dedupGo_sublist [] l, ?_⟩
  intro x
  rw [dedupPreservingOrder, dedupGo_mem]
  simp

/-- C3.  When a character's stored reference list contains a canonical
`ref-` image (first such entry `c`), the per-chunk selection of main caps
the count at one and `find_character_reference_images` prioritizes the
canonical entry: the attached list for that character is at most the
resolved canonical image — never any stored storyboard image — and is
exactly that one image as soon as the canonical file resolves to a file
on disk, regardless of how many storyboard images are stored. -/
theorem C3_canonical_reference_wins
    (isFile : Str → Bool) (cwd scriptRoot outputDir name : Str)
    (charRefs : List (Str × List Str)) (ps : List Str) (c : Str)
    (cs : List Str) (hname : name ≠ [])
    (hlookup : alistLookup name charRefs = some ps)
    (hcanon : ps.filter isCanonicalRefName = c :: cs) :
    (selectCharacterReferences isFile cwd scriptRoot charRefs outputDir name
       = [] ∨
     selectCharacterReferences isFile cwd scriptRoot charRefs outputDir name
       = [pyAbspath cwd (resolveReferencePath isFile cwd scriptRoot outputDir c)]) ∧
    (isFile (resolveReferencePath isFile cwd scriptRoot outputDir c) = true →
     selectCharacterReferences isFile cwd scriptRoot charRefs outputDir name
       = [pyAbspath cwd (resolveReferencePath isFile cwd scriptRoot outputDir c)]) := by
  have hcmem : c ∈ ps.filter isCanonicalRefName := by
    rw [hcanon]
    exact List.mem_cons_self _ _
  have hany : ps.any isCanonicalRefName = true := by
    rcases List.mem_filter.1 hcmem with ⟨hcp, hcpred⟩
    exact List.any_eq_true.2 ⟨c, hcp, hcpred⟩
  have hsel : selectCharacterReferences isFile cwd scriptRoot charRefs
      outputDir name
      = if isFile (resolveReferencePath isFile cwd scriptRoot outputDir c)
          = true then
          [pyAbspath cwd (resolveReferencePath isFile cwd scriptRoot outputDir c)]
        else [] := by
    simp only [selectCharacterReferences, hname, if_false, hlookup, hany,
      if_true, find_character_reference_images, hcanon]
    cases hf : isFile (resolveReferencePath isFile cwd scriptRoot outputDir c) <;>
      simp [hf]
  constructor
  · cases hf : isFile (resolveReferencePath isFile cwd scriptRoot outputDir c) with
    | true => exact Or.inr (by rw [hsel, if_pos hf])
    | false =>
      refine Or.inl ?_
      rw [hsel, if_neg ?_]
      simp [hf]
  · intro hf
    rw [hsel, if_pos hf]

/-- C3 (witness): Joel holds a canonical `ref-joel.png` plus five stored
storyboard images; with every path resolving to a file, exactly the
canonical image is attached. -/
theorem C3_witness :
    (selectCharacterReferences (fun _ => true) (S ("/w")) (S ("/w"))
       c3CharRefs (S ("boards")) (S ("Joel")) = [] ∨
     selectCharacterReferences (fun _ => true) (S ("/w")) (S ("/w"))
       c3CharRefs (S ("boards")) (S ("Joel"))
       = [pyAbspath (S ("/w"))
           (resolveReferencePath (fun _ => true) (S ("/w")) (S ("/w"))
             (S ("boards")) (S ("ref-joel.png")))]) ∧
    ((fun (_ : Str) => true) (resolveReferencePath (fun _ => true) (S ("/w"))
        (S ("/w")) (S ("boards")) (S ("ref-joel.png"))) = true →
     selectCharacterReferences (fun _ => true) (S ("/w")) (S ("/w"))
       c3CharRefs (S ("boards")) (S ("Joel"))
       = [pyAbspath (S ("/w"))
           (resolveReferencePath (fun _ => true) (S ("/w")) (S ("/w"))
             (S ("boards")) (S ("ref-joel.png")))]) :=
  C3_canonical_reference_wins (fun _ => true) (S ("/w")) (S ("/w"))
    (S ("boards")) (S ("Joel")) c3CharRefs
    [S ("ref-joel.png"), S ("a.png"), S ("b.png"), S ("c.png"),
      S ("d.png"), S ("e.png")]
    (S ("ref-joel.png"))
    [] (by decide) (by decide) (by decide)

/-! Grouping lemmas for the scene chunker. -/

theorem chunksOfGo_adequate {α : Type} (k : Nat) (hk : 1 ≤ k) :
    ∀ (f1 : Nat) (l : List α) (f2 : Nat), l.length ≤ f1 → l.length ≤ f2 →
    chunksOfGo k f1 l = chunksOfGo k f2 l := by
  intro f1
  induction f1 with
  | zero =>
    intro l f2 h1 _
    have : l = [] := List.eq_nil_of_length_eq_zero (by omega)
    subst this
    cases f2 <;> rfl
  | succ f1' ih =>
    intro l f2 h1 h2
    cases l with
    | nil => cases f2 <;> rfl
    | cons x xs =>
      cases f2 with
      | zero => simp at h2
      | succ f2' =>
        show (x :: xs).take k :: chunksOfGo k f1' ((x :: xs).drop k)
          = (x :: xs).take k :: chunksOfGo k f2' ((x :: xs).drop k)
        have hd : ((x :: xs).drop k).length ≤ f1' := by
          rw [List.length_drop]
          simp only [List.length_cons] at h1 ⊢
          omega
        have hd2 : ((x :: xs).drop k).length ≤ f2' := by
          rw [List.length_drop]
          simp only [List.length_cons] at h2 ⊢
          omega
        rw [ih ((x :: xs).drop k) f2' hd hd2]

theorem chunksOf_cons {α : Type} (k : Nat) (hk : 1 ≤ k) (l : List α)
    (hl : l ≠ []) : chunksOf k l = l.take k :: chunksOf k (l.drop k) := by
  obtain ⟨x, xs, rfl⟩ : ∃ y ys, l = y :: ys := by
    cases l with
    | nil => exact absurd rfl hl
    | cons y ys => exact ⟨y, ys, rfl⟩
  show (x :: xs).take k :: chunksOfGo k xs.length ((x :: xs).drop k)
    = (x :: xs).take k :: chunksOf k ((x :: xs).drop k)
  rw [chunksOf, chunksOfGo_adequate k hk xs.length ((x :: xs).drop k)
    ((x :: xs).drop k).length (by rw [List.length_drop]; simp; omega)
    (Nat.le_refl _)]

theorem chunksOf_ne_nil {α : Type} (k : Nat) (l : List α) (hl : l ≠ []) :
    chunksOf k l ≠ [] := by
  obtain ⟨x, xs, rfl⟩ : ∃ y ys, l = y :: ys := by
    cases l with
    | nil => exact absurd rfl hl
    | cons y ys => exact ⟨y, ys, rfl⟩
  show (x :: xs).take k :: chunksOfGo k xs.length ((x :: xs).drop k) ≠ []
  exact List.cons_ne_nil _ _

theorem chunksOf_flatten {α : Type} (k : Nat) (hk : 1 ≤ k) :
    ∀ (n : Nat) (l : List α), l.length ≤ n → (chunksOf k l).flatten = l := by
  intro n
  induction n with
  | zero =>
    intro l h
    have : l = [] := List.eq_nil_of_length_eq_zero (by omega)
    subst this
    rfl
  | succ n ih =>
    intro l h
    cases hl : l with
    | nil => rfl
    | cons x xs =>
      subst hl
      rw [chunksOf_cons k hk _ (List.cons_ne_nil _ _), List.flatten_cons,
        ih ((x :: xs).drop k)
          (by rw [List.length_drop]; simp only [List.length_cons] at h ⊢; omega)]
      exact List.take_append_drop k (x :: xs)

theorem chunksOf_mem_ne_nil {α : Type} (k : Nat) (hk : 1 ≤ k) :
    ∀ (n : Nat) (l : List α), l.length ≤ n → ∀ g ∈ chunksOf k l, g ≠ [] := by
  intro n
  induction n with
  | zero =>
    intro l h g hg
    have : l = [] := List.eq_nil_of_length_eq_zero (by omega)
    subst this
    simp [chunksOf, chunksOfGo] at hg
  | succ n ih =>
    intro l h g hg
    cases hl : l with
    | nil =>
      subst hl
      simp [chunksOf, chunksOfGo] at hg
    | cons x xs =>
      subst hl
      rw [chunksOf_cons k hk _ (List.cons_ne_nil _ _)] at hg
      rcases List.mem_cons.1 hg with rfl | hg'
      · intro hnil
        rw [List.take_eq_nil_iff] at hnil
        rcases hnil with h | h
        · omega
        · exact List.cons_ne_nil _ _ h
      · exact ih ((x :: xs).drop k)
          (by rw [List.length_drop]; simp only [List.length_cons] at h ⊢; omega)
          g hg'

theorem bisectStoryboard_ne_nil (tb : Str × Str) :
    bisectStoryboard tb ≠ [] := by
  rw [bisectStoryboard]
  split
  · exact List.cons_ne_nil _ _
  · exact List.cons_ne_nil _ _

theorem applyMinMaxStoryboards_length_le (sb : List (Str × Str))
    (minS maxS : Nat) :
    (applyMinMaxStoryboards sb minS maxS).length ≤ maxS := by
  rw [applyMinMaxStoryboards]
  split
  · exact List.length_take_le _ _
  · split
    · exact List.length_take_le _ _
    · omega

theorem applyMinMaxStoryboards_ne_nil (sb : List (Str × Str))
    (minS maxS : Nat) (hm : 1 ≤ maxS) (hsb : sb ≠ []) :
    applyMinMaxStoryboards sb minS maxS ≠ [] := by
  rw [applyMinMaxStoryboards]
  split
  · intro h
    rw [List.take_eq_nil_iff] at h
    rcases h with h | h
    · omega
    · obtain ⟨x, xs, rfl⟩ : ∃ y ys, sb = y :: ys := by
        cases sb with
        | nil => exact absurd rfl hsb
        | cons y ys => exact ⟨y, ys, rfl⟩
      rw [List.map_cons, List.flatten_cons, List.append_eq_nil] at h
      exact bisectStoryboard_ne_nil x h.1
  · split
    · intro h
      rw [List.take_eq_nil_iff] at h
      rcases h with h | h
      · omega
      · exact hsb h
    · exact hsb

theorem sectionStoryboards_ne_nil (sections : List (Str × Str)) (maxS : Nat)
    (hs : sections ≠ []) : sectionStoryboards sections maxS ≠ [] := by
  rw [sectionStoryboards]
  intro h
  rw [List.map_eq_nil_iff] at h
  exact chunksOf_ne_nil _ _ hs h

theorem paragraphStoryboards_ne_nil (scene : Str) (maxS : Nat) :
    paragraphStoryboards scene maxS ≠ [] := by
  rw [paragraphStoryboards]
  intro h
  rw [List.map_eq_nil_iff] at h
  have hlen := congrArg List.length h
  rw [List.enum_length] at hlen
  refine chunksOf_ne_nil _ _ ?_ (List.eq_nil_of_length_eq_zero hlen)
  split
  · exact List.cons_ne_nil _ _
  · assumption

/-- C9.  On every input string — empty, header-free, paragraph-free
included — `divide_scene_into_storyboards` (at its default band 4-6)
terminates and returns at least one `(title, text)` chunk, so every scene
produces at least one storyboard request.  (Totality is inherent: the
embedding is a total function.) -/
theorem C9_divide_always_nonempty (scene : Str) :
    divide_scene_into_storyboards scene 4 6 ≠ [] := by
  rw [divide_scene_into_storyboards]
  split
  · exact applyMinMaxStoryboards_ne_nil _ 4 6 (by omega)
      (sectionStoryboards_ne_nil _ 6 (by assumption))
  · exact applyMinMaxStoryboards_ne_nil _ 4 6 (by omega)
      (paragraphStoryboards_ne_nil scene 6)

/-- C4 (counterexample).  The scene `"## A\n\nHello."` has a section
header, yet with the default band [4, 6] the chunker returns only two
chunks: the single section cannot be regrouped upward, and the one
bisection pass only doubles the count — the configured minimum is not
reached. -/
theorem C4_counterexample :
    extract_sections c4Scene ≠ [] ∧
    (divide_scene_into_storyboards c4Scene 4 6).length = 2 ∧
    ¬(4 ≤ (divide_scene_into_storyboards c4Scene 4 6).length ∧
      (divide_scene_into_storyboards c4Scene 4 6).length ≤ 6) := by
  refine ⟨by decide, by decide, ?_⟩
  intro h
  have := h.1
  revert this
  decide

/-- C4 (amended).  For every scene with section headers the chunk count
never exceeds the configured maximum (truncation guarantees the upper
bound) and is at least one; the configured minimum, however, is NOT
guaranteed (see the counterexample), since the single bisection pass can
at most double the chunk count. -/
theorem C4_chunk_count_bounds (scene : Str) (minS maxS : Nat)
    (hsec : extract_sections scene ≠ []) (hmax : 1 ≤ maxS) :
    1 ≤ (divide_scene_into_storyboards scene minS maxS).length ∧
    (divide_scene_into_storyboards scene minS maxS).length ≤ maxS := by
  have hne : divide_scene_into_storyboards scene minS maxS ≠ [] := by
    rw [divide_scene_into_storyboards, if_pos hsec]
    exact applyMinMaxStoryboards_ne_nil _ minS maxS hmax
      (sectionStoryboards_ne_nil _ maxS hsec)
  refine ⟨?_, ?_⟩
  · have := List.length_pos.2 hne
    omega
  · rw [divide_scene_into_storyboards]
    exact applyMinMaxStoryboards_length_le _ minS maxS

/-- C4 (witness): a five-section scene at the default band. -/
theorem C4_witness :
    1 ≤ (divide_scene_into_storyboards c5GoodScene 4 6).length ∧
    (divide_scene_into_storyboards c5GoodScene 4 6).length ≤ 6 :=
  C4_chunk_count_bounds c5GoodScene 4 6 (by decide) (by omega)

/-- C1 (counterexample).  For the chunk whose section header names the
present-day `Operations Floor`, the storyboard generator's
present-character list (the one handed to `build_prompt`) still contains
the biblical-era Joel: `detect_entities` has no era logic and the main
loop applies no era filter, so Joel is NOT excluded even though his era is
outside the era set implied by the detected settings. -/
theorem C1_counterexample :
    joelChar ∈ chunkPresentCharacters
        (detect_entities c1ChunkText c1Defs).characters c1ChunkText c1Defs ∧
    joelChar.era = S ("biblical") ∧
    get_eras_from_settings
        (chunkPresentSettings (detect_entities c1ChunkText c1Defs).settings
          c1ChunkText c1Defs)
      = [S ("present-day")] ∧
    pyLower joelChar.era ∉ [S ("present-day")] := by
  refine ⟨by decide, by decide, by decide, by decide⟩

/-- C1 (amended).  Era-based exclusion exists only in the scene
generator's `filter_characters_by_era`: with a nonempty allowed-era set it
keeps exactly the characters whose lowercased era is empty or allowed (so
characters with no era tag are never excluded), and it drops every
character with a nonempty era outside the set.  The storyboard generator's
chunk present-character list is never era-filtered: it is always either
the detector's output or the scene-level fallback list verbatim. -/
theorem C1_era_filter_only_in_scene_generator :
    (∀ (chars : List (Str × Character)) (allowed : List Str)
       (kv : Str × Character), kv ∈ chars → kv.2.era = [] →
       kv ∈ filter_characters_by_era chars allowed) ∧
    (∀ (chars : List (Str × Character)) (allowed : List Str)
       (kv : Str × Character), allowed ≠ [] → pyLower kv.2.era ≠ [] →
       pyLower kv.2.era ∉ allowed →
       kv ∉ filter_characters_by_era chars allowed) ∧
    (∀ (sceneCharacters : List Character) (chunkText : Str)
       (defs : Definitions),
       chunkPresentCharacters sceneCharacters chunkText defs
         = (detect_entities chunkText defs).characters ∨
       chunkPresentCharacters sceneCharacters chunkText defs
         = sceneCharacters) := by
  refine ⟨?_, ?_, ?_⟩
  · intro chars allowed kv hmem hera
    rw [filter_characters_by_era]
    split
    · exact hmem
    · refine List.mem_filter.2 ⟨hmem, ?_⟩
      simp [hera, pyLower]
  · intro chars allowed kv hne hera hnotin hmem
    rw [filter_characters_by_era, if_neg hne] at hmem
    have hpred := (List.mem_filter.1 hmem).2
    simp only [Bool.or_eq_true, decide_eq_true_eq] at hpred
    rcases hpred with h | h
    · exact hera h
    · exact hnotin ((contains_eq_true_iff_mem _ _).1 h)
  · intro sceneCharacters chunkText defs
    simp only [chunkPresentCharacters]
    split
    · split
      · exact Or.inr rfl
      · exact Or.inl rfl
    · exact Or.inl rfl

/-- C1 (witness): Mary (no era) survives the filter, Joel (biblical) is
dropped for a present-day era set, and a concrete chunk list is the
detector's output. -/
theorem C1_witness :
    ((S ("mary"), maryChar) ∈ filter_characters_by_era
        [(S ("mary"), maryChar)] [S ("present-day")]) ∧
    ((S ("joel"), joelChar) ∉ filter_characters_by_era
        [(S ("joel"), joelChar)] [S ("present-day")]) ∧
    (chunkPresentCharacters [] c1ChunkText c1Defs
       = (detect_entities c1ChunkText c1Defs).characters ∨
     chunkPresentCharacters [] c1ChunkText c1Defs = []) :=
  ⟨C1_era_filter_only_in_scene_generator.1 [(S ("mary"), maryChar)]
      [S ("present-day")] (S ("mary"), maryChar) (by decide) (by decide),
   C1_era_filter_only_in_scene_generator.2.1 [(S ("joel"), joelChar)]
      [S ("present-day")] (S ("joel"), joelChar) (by decide) (by decide)
      (by decide),
   C1_era_filter_only_in_scene_generator.2.2 [] c1ChunkText c1Defs⟩

/-- C6 (counterexample).  For a chunk in which the extra Lamp is detected
as present, the success path of main leaves the extra-reference cache
untouched: the new output image path is NOT inserted at the front of the
Lamp's reference list (only character references are updated
post-generation). -/
theorem C6_counterexample :
    (detect_entities c6ChunkText c6Defs).extras = [lampExtra] ∧
    (mainChunkSuccessUpdate (S ("/w")) (S ("boards"))
        (S ("boards/scene-1-1.png"))
        (detect_entities c6ChunkText c6Defs).characters c6State).extraReferences
      = [(S ("Lamp"), [S ("old.png")])] ∧
    relativizePath (S ("/w")) (S ("boards/scene-1-1.png")) (S ("boards"))
      ∉ [S ("old.png")] := by
  refine ⟨by decide, by decide, by decide⟩

/-- An update for one character leaves every other key's list untouched. -/
theorem update_lookup_other (cwd : Str) (refs : List (Str × List Str))
    (name imagePath outputDir k : Str) (hk : name ≠ k) :
    alistLookup k (update_character_references cwd refs name imagePath
      outputDir) = alistLookup k refs := by
  rw [update_character_references]
  cases h : alistLookup name refs with
  | none =>
    simp only [alistLookup_append_self name refs [] h, Option.getD_some,
      List.contains, List.elem_nil, Bool.false_eq_true, if_false]
    rw [alistLookup_alistSet_other k name _ _ hk,
      alistLookup_append_other k name refs [] hk]
  | some l =>
    simp only [Option.getD_some]
    split
    · rfl
    · exact alistLookup_alistSet_other k name _ refs hk

/-- An update for a character stores exactly the source's new list. -/
theorem update_lookup_self (cwd : Str) (refs : List (Str × List Str))
    (name imagePath outputDir : Str) :
    alistLookup name (update_character_references cwd refs name imagePath
      outputDir)
      = some (if ((alistLookup name refs).getD []).contains
            (relativizePath cwd imagePath outputDir) then
          (alistLookup name refs).getD []
        else (relativizePath cwd imagePath outputDir ::
          (alistLookup name refs).getD []).take 10) := by
  rw [update_character_references]
  cases h : alistLookup name refs with
  | none =>
    simp only [h, alistLookup_append_self name refs [] h, Option.getD_some,
      Option.getD_none, List.contains, List.elem_nil, Bool.false_eq_true,
      if_false]
    exact alistLookup_alistSet_self name _ _
  | some l =>
    simp only [h, Option.getD_some]
    split
    · exact h
    · exact alistLookup_alistSet_self name _ _

/-- Looking up a key that no character of the fold updates is stable. -/
theorem foldUpdate_lookup_other (cwd outputDir outputPath : Str) (k : Str) :
    ∀ (chars : List Character) (refs : List (Str × List Str)),
    (∀ c ∈ chars, c.name = [] ∨ c.name ≠ k) →
    alistLookup k (chars.foldl (fun refs c =>
        if c.name ≠ [] then
          update_character_references cwd refs c.name outputPath outputDir
        else refs) refs)
      = alistLookup k refs := by
  intro chars
  induction chars with
  | nil => intro refs _; rfl
  | cons c' rest ih =>
    intro refs hk
    rw [List.foldl_cons]
    rcases hk c' (List.mem_cons_self _ _) with hnil | hne
    · rw [if_neg (by simp [hnil])]
      exact ih refs (fun e he => hk e (List.mem_cons_of_mem _ he))
    · by_cases hn : c'.name ≠ []
      · rw [if_pos hn,
          ih _ (fun e he => hk e (List.mem_cons_of_mem _ he))]
        exact update_lookup_other cwd refs c'.name outputPath outputDir k hne
      · rw [if_neg hn]
        exact ih refs (fun e he => hk e (List.mem_cons_of_mem _ he))

/-- Looking up a character of the fold (distinct names) yields exactly one
update of its original list. -/
theorem foldUpdate_lookup_mem (cwd outputDir outputPath : Str) :
    ∀ (chars : List Character) (refs : List (Str × List Str))
      (c : Character),
    (chars.map Character.name).Nodup → c ∈ chars → c.name ≠ [] →
    alistLookup c.name (chars.foldl (fun refs c =>
        if c.name ≠ [] then
          update_character_references cwd refs c.name outputPath outputDir
        else refs) refs)
      = some (if ((alistLookup c.name refs).getD []).contains
            (relativizePath cwd outputPath outputDir) then
          (alistLookup c.name refs).getD []
        else (relativizePath cwd outputPath outputDir ::
          (alistLookup c.name refs).getD []).take 10) := by
  intro chars
  induction chars with
  | nil => intro refs c _ hc; simp at hc
  | cons c' rest ih =>
    intro refs c hnodup hc hname
    rw [List.map_cons, List.nodup_cons] at hnodup
    rw [List.foldl_cons]
    rcases List.mem_cons.1 hc with rfl | hcr
    · rw [if_pos hname]
      rw [foldUpdate_lookup_other cwd outputDir outputPath c.name rest _ ?hrest]
      · exact update_lookup_self cwd refs c.name outputPath outputDir
      case hrest =>
        intro e he
        by_cases hen : e.name = []
        · exact Or.inl hen
        · refine Or.inr ?_
          intro heq
          exact hnodup.1 (heq ▸ List.mem_map_of_mem Character.name he)
    · have hcn : c.name ≠ c'.name := by
        intro heq
        exact hnodup.1 (heq ▸ List.mem_map_of_mem Character.name hcr)
      by_cases hn : c'.name ≠ []
      · rw [if_pos hn]
        rw [ih _ c hnodup.2 hcr hname,
          update_lookup_other cwd refs c'.name outputPath outputDir c.name
            (fun h => hcn h.symm)]
      · rw [if_neg hn]
        exact ih refs c hnodup.2 hcr hname

/-- C6 (amended).  On the success path of a chunk, for every character
detected in that chunk (with pairwise distinct names) the relativized
output path is pushed to the front of that character's reference list and
the list is capped at 10 — unless the path is already stored, in which
case the list is unchanged; the extra- and setting-reference caches are
not updated at all by this path (they are only written when first-time
reference images are generated). -/
theorem C6_success_path_updates_characters_only
    (cwd outputDir outputPath : Str) (chunkCharacters : List Character)
    (state : RefState) (c : Character)
    (hnodup : (chunkCharacters.map Character.name).Nodup)
    (hc : c ∈ chunkCharacters) (hname : c.name ≠ []) :
    alistLookup c.name (mainChunkSuccessUpdate cwd outputDir outputPath
        chunkCharacters state).characterReferences
      = some (if ((alistLookup c.name state.characterReferences).getD
            []).contains (relativizePath cwd outputPath outputDir) then
          (alistLookup c.name state.characterReferences).getD []
        else (relativizePath cwd outputPath outputDir ::
          (alistLookup c.name state.characterReferences).getD []).take 10) ∧
    (mainChunkSuccessUpdate cwd outputDir outputPath chunkCharacters
        state).extraReferences = state.extraReferences ∧
    (mainChunkSuccessUpdate cwd outputDir outputPath chunkCharacters
        state).settingReferences = state.settingReferences := by
  refine ⟨?_, rfl, rfl⟩
  rw [mainChunkSuccessUpdate]
  exact foldUpdate_lookup_mem cwd outputDir outputPath chunkCharacters
    state.characterReferences c hnodup hc hname

/-- C6 (witness): Joel detected in the chunk gets the new image pushed in
front of his single stored reference; the extra cache is untouched. -/
theorem C6_witness :
    alistLookup (S ("Joel")) (mainChunkSuccessUpdate (S ("/w")) (S ("boards"))
        (S ("boards/scene-1-1.png"))
        [{ name := S ("Joel"), aliases := [], era := [] }]
        c6State).characterReferences
      = some (if ((alistLookup (S ("Joel"))
            c6State.characterReferences).getD []).contains
            (relativizePath (S ("/w")) (S ("boards/scene-1-1.png"))
              (S ("boards"))) then
          (alistLookup (S ("Joel")) c6State.characterReferences).getD []
        else (relativizePath (S ("/w")) (S ("boards/scene-1-1.png"))
            (S ("boards")) ::
          (alistLookup (S ("Joel")) c6State.characterReferences).getD
            []).take 10) ∧
    (mainChunkSuccessUpdate (S ("/w")) (S ("boards"))
        (S ("boards/scene-1-1.png"))
        [{ name := S ("Joel"), aliases := [], era := [] }]
        c6State).extraReferences = c6State.extraReferences ∧
    (mainChunkSuccessUpdate (S ("/w")) (S ("boards"))
        (S ("boards/scene-1-1.png"))
        [{ name := S ("Joel"), aliases := [], era := [] }]
        c6State).settingReferences = c6State.settingReferences :=
  C6_success_path_updates_characters_only (S ("/w")) (S ("boards"))
    (S ("boards/scene-1-1.png"))
    [{ name := S ("Joel"), aliases := [], era := [] }] c6State
    { name := S ("Joel"), aliases := [], era := [] }
    (by decide) (by decide) (by decide)

/-! String lemmas for the chunk-text round trip (C5). -/

theorem pySplitNL_ne_nil (s : Str) : pySplitNL s ≠ [] := by
  induction s with
  | nil => simp [pySplitNL]
  | cons c t ih =>
    by_cases hc : c = '\n'
    · subst hc
      simp [pySplitNL]
    · cases h : pySplitNL t with
      | nil => exact absurd h ih
      | cons r rs => simp [pySplitNL, hc, h]

theorem pyJoin_cons_ne_nil (sep : Str) (x : Str) (ps : List Str)
    (h : ps ≠ []) : pyJoin sep (x :: ps) = x ++ sep ++ pyJoin sep ps := by
  cases ps with
  | nil => exact absurd rfl h
  | cons y rest => rfl

theorem pyJoin_splitNL (s : Str) : pyJoin nlStr (pySplitNL s) = s := by
  induction s with
  | nil => rfl
  | cons c t ih =>
    by_cases hc : c = '\n'
    · subst hc
      rw [show pySplitNL ('\n' :: t) = [] :: pySplitNL t from rfl,
        pyJoin_cons_ne_nil _ _ _ (pySplitNL_ne_nil t), ih]
      rfl
    · cases h : pySplitNL t with
      | nil => exact absurd h (pySplitNL_ne_nil t)
      | cons r rs =>
        have hstep : pySplitNL (c :: t) = (c :: r) :: rs := by
          simp [pySplitNL, hc, h]
        rw [hstep]
        cases rs with
        | nil =>
          rw [h] at ih
          show c :: r = c :: t
          rw [show pyJoin nlStr [r] = r from rfl] at ih
          rw [ih]
        | cons r2 rs2 =>
          rw [pyJoin_cons_ne_nil _ _ _ (List.cons_ne_nil _ _)]
          rw [h] at ih
          rw [pyJoin_cons_ne_nil _ _ _ (List.cons_ne_nil _ _)] at ih
          rw [List.cons_append, List.cons_append, ih]

theorem pySplitNL_append (a b : Str) :
    pySplitNL (a ++ '\n' :: b) = pySplitNL a ++ pySplitNL b := by
  induction a with
  | nil => rfl
  | cons c t ih =>
    by_cases hc : c = '\n'
    · subst hc
      show pySplitNL ('\n' :: (t ++ '\n' :: b))
        = pySplitNL ('\n' :: t) ++ pySplitNL b
      rw [show pySplitNL ('\n' :: (t ++ '\n' :: b))
          = [] :: pySplitNL (t ++ '\n' :: b) from rfl, ih]
      rfl
    · cases h : pySplitNL t with
      | nil => exact absurd h (pySplitNL_ne_nil t)
      | cons r rs =>
        have h1 : pySplitNL (c :: t) = (c :: r) :: rs := by
          simp [pySplitNL, hc, h]
        have h2 : pySplitNL (t ++ '\n' :: b) = r :: (rs ++ pySplitNL b) := by
          rw [ih, h, List.cons_append]
        have h3 : pySplitNL (c :: (t ++ '\n' :: b))
            = (c :: r) :: (rs ++ pySplitNL b) := by
          simp [pySplitNL, hc, h2]
        rw [List.cons_append, h3, h1, List.cons_append]

theorem pySplitNL_no_newline (a : Str) (h : '\n' ∉ a) : pySplitNL a = [a] := by
  induction a with
  | nil => rfl
  | cons c t ih =>
    have hc : ¬c = '\n' := fun he => h (he ▸ List.mem_cons_self _ _)
    have ht : '\n' ∉ t := fun he => h (List.mem_cons_of_mem _ he)
    simp [pySplitNL, hc, ih ht]

theorem dropWhile_append_single (p : Char → Bool) (l : Str) (c : Char) :
    (l ++ [c]).dropWhile p
      = if l.dropWhile p = [] then [c].dropWhile p
        else l.dropWhile p ++ [c] := by
  induction l with
  | nil => simp
  | cons x t ih =>
    by_cases hx : p x = true
    · simp [List.dropWhile_cons, hx, ih]
    · simp [List.dropWhile_cons, hx]

theorem pyStrip_cons_ws (c : Char) (b : Str) (hc : isPyWs c = true) :
    pyStrip (c :: b) = pyStrip b := by
  rw [pyStrip, pyStrip, List.dropWhile_cons, if_pos hc]

theorem pyStrip_append_ws (b : Str) (c : Char) (hc : isPyWs c = true) :
    pyStrip (b ++ [c]) = pyStrip b := by
  rw [pyStrip, pyStrip, dropWhile_append_single]
  by_cases h : b.dropWhile isPyWs = []
  · rw [if_pos h, h]
    rw [show ([c].dropWhile isPyWs) = [] from by
      simp [List.dropWhile_cons, hc]]
  · rw [if_neg h, List.reverse_append]
    rw [show ([c].reverse) = [c] from rfl, List.singleton_append,
      List.dropWhile_cons, if_pos hc]

theorem pyJoin_append_single (sep : Str) (ps : List Str) (x : Str)
    (h : ps ≠ []) : pyJoin sep (ps ++ [x]) = pyJoin sep ps ++ sep ++ x := by
  induction ps with
  | nil => exact absurd rfl h
  | cons y t ih =>
    cases t with
    | nil => rfl
    | cons z t2 =>
      rw [List.cons_append,
        pyJoin_cons_ne_nil sep y ((z :: t2) ++ [x]) (by simp),
        pyJoin_cons_ne_nil sep y (z :: t2) (List.cons_ne_nil _ _),
        ih (List.cons_ne_nil _ _)]
      simp [List.append_assoc]

theorem extractGo_step_body (ct : Option Str) (cl : List Str) (l : Str)
    (rest : List Str) (hl : hdrMarker.isPrefixOf l = false) :
    extractSectionsGo ct cl (l :: rest)
      = extractSectionsGo ct (cl ++ [l]) rest := by
  simp [extractSectionsGo, hl]

theorem extractGo_step_header_some (t0 : Str) (cl : List Str) (l : Str)
    (rest : List Str) (hl : hdrMarker.isPrefixOf l = true) :
    extractSectionsGo (some t0) cl (l :: rest)
      = (t0, pyStrip (pyJoin nlStr cl)) ::
        extractSectionsGo (some (pyStrip (pyReplaceHdr l))) [] rest := by
  simp [extractSectionsGo, hl]

theorem extractGo_step_header_none (cl : List Str) (l : Str)
    (rest : List Str) (hl : hdrMarker.isPrefixOf l = true) :
    extractSectionsGo none cl (l :: rest)
      = extractSectionsGo (some (pyStrip (pyReplaceHdr l))) [] rest := by
  simp [extractSectionsGo, hl]

theorem extractGo_body (bls : List Str)
    (hb : ∀ l ∈ bls, hdrMarker.isPrefixOf l = false) :
    ∀ (ct : Option Str) (cl : List Str) (rest : List Str),
    extractSectionsGo ct cl (bls ++ rest)
      = extractSectionsGo ct (cl ++ bls) rest := by
  induction bls with
  | nil => intro ct cl rest; simp
  | cons l t ih =>
    intro ct cl rest
    rw [List.cons_append,
      extractGo_step_body ct cl l (t ++ rest)
        (hb l (List.mem_cons_self _ _)),
      ih (fun x hx => hb x (List.mem_cons_of_mem _ hx)) ct (cl ++ [l]) rest]
    congr 1
    simp

theorem pyStrip_join_append_empty (cl : List Str) :
    pyStrip (pyJoin nlStr (cl ++ [[]])) = pyStrip (pyJoin nlStr cl) := by
  cases cl with
  | nil => rfl
  | cons x xs =>
    rw [pyJoin_append_single _ _ _ (List.cons_ne_nil _ _)]
    rw [List.append_assoc, List.append_nil]
    exact pyStrip_append_ws _ '\n' (by decide)

theorem extractGo_trailing_empty :
    ∀ (ls : List Str) (ct : Option Str) (cl : List Str),
    extractSectionsGo ct cl (ls ++ [[]]) = extractSectionsGo ct cl ls := by
  intro ls
  induction ls with
  | nil =>
    intro ct cl
    rw [List.nil_append,
      extractGo_step_body ct cl [] [] (by decide)]
    cases ct with
    | none => rfl
    | some t =>
      show [(t, pyStrip (pyJoin nlStr (cl ++ [[]])))]
        = [(t, pyStrip (pyJoin nlStr cl))]
      rw [pyStrip_join_append_empty]
  | cons l t ih =>
    intro ct cl
    by_cases hl : hdrMarker.isPrefixOf l = true
    · cases ct with
      | some t0 =>
        rw [List.cons_append,
          extractGo_step_header_some t0 cl l (t ++ [[]]) hl,
          extractGo_step_header_some t0 cl l t hl, ih]
      | none =>
        rw [List.cons_append,
          extractGo_step_header_none cl l (t ++ [[]]) hl,
          extractGo_step_header_none cl l t hl, ih]
    · rw [List.cons_append,
        extractGo_step_body ct cl l (t ++ [[]])
          (Bool.eq_false_iff.2 hl),
        extractGo_step_body ct cl l t (Bool.eq_false_iff.2 hl), ih]

theorem extract_sections_eq_go (s : Str) :
    extract_sections s = extractSectionsGo none [] (pySplitNL s) := by
  rw [extract_sections, pySplitlines]
  by_cases hs : s = []
  · subst hs
    rfl
  · rw [if_neg hs]
    by_cases hl : (pySplitNL s).getLast? = some ([] : Str)
    · simp only [hl, if_true]
      have hne := pySplitNL_ne_nil s
      have hlast : (pySplitNL s).getLast hne = [] := by
        have := List.getLast?_eq_getLast (pySplitNL s) hne
        rw [hl] at this
        exact Option.some.inj this.symm
      conv_rhs =>
        rw [← List.dropLast_append_getLast hne, hlast]
      rw [extractGo_trailing_empty]
    · simp only [hl, if_false]

theorem sectionText_eq (tb : Str × Str) :
    sectionText tb = (hdrMarker ++ tb.1) ++ '\n' :: ('\n' :: tb.2) := by
  rw [sectionText, nnStr]
  simp [List.append_assoc]

theorem pySplitNL_sectionText (tb : Str × Str) (ht : '\n' ∉ tb.1) :
    pySplitNL (sectionText tb) = secLines tb := by
  rw [sectionText_eq, pySplitNL_append,
    pySplitNL_no_newline (hdrMarker ++ tb.1) ?hnl]
  · rfl
  case hnl =>
    intro hmem
    rcases List.mem_append.1 hmem with h | h
    · revert h
      decide
    · exact ht h

theorem pySplitNL_chunkText :
    ∀ (group : List (Str × Str)), group ≠ [] →
    (∀ tb ∈ group, '\n' ∉ tb.1) →
    pySplitNL (pyJoin nnStr (group.map sectionText)) = chunkLines group := by
  intro group
  induction group with
  | nil => intro h _; exact absurd rfl h
  | cons tb rest ih =>
    intro _ hwf
    cases rest with
    | nil =>
      rw [List.map_cons, List.map_nil,
        show pyJoin nnStr [sectionText tb] = sectionText tb from rfl,
        pySplitNL_sectionText tb (hwf tb (List.mem_cons_self _ _))]
      rfl
    | cons tb2 rest2 =>
      rw [List.map_cons,
        pyJoin_cons_ne_nil nnStr (sectionText tb) _ (by simp)]
      rw [show sectionText tb ++ nnStr ++
            pyJoin nnStr ((tb2 :: rest2).map sectionText)
          = sectionText tb ++ '\n' ::
            ('\n' :: pyJoin nnStr ((tb2 :: rest2).map sectionText)) from by
        rw [nnStr]
        simp [List.append_assoc]]
      rw [pySplitNL_append,
        pySplitNL_sectionText tb (hwf tb (List.mem_cons_self _ _)),
        show pySplitNL ('\n' :: pyJoin nnStr ((tb2 :: rest2).map sectionText))
          = [] :: pySplitNL (pyJoin nnStr ((tb2 :: rest2).map sectionText))
          from rfl,
        ih (List.cons_ne_nil _ _)
          (fun x hx => hwf x (List.mem_cons_of_mem _ hx))]
      rfl

theorem chunkLines_cons (tb : Str × Str) (rest : List (Str × Str)) :
    chunkLines (tb :: rest) = (hdrMarker ++ tb.1) :: restLinesOf tb rest := by
  cases rest with
  | nil => rfl
  | cons tb2 rest2 =>
    show secLines tb ++ [] :: chunkLines (tb2 :: rest2) = _
    rw [secLines, restLinesOf]
    simp [List.append_assoc]

theorem hdrMarker_isPrefixOf_append (x : Str) :
    hdrMarker.isPrefixOf (hdrMarker ++ x) = true :=
  List.isPrefixOf_iff_prefix.2 (List.prefix_append _ _)

theorem pyReplaceHdr_hdr_append (x : Str) :
    pyReplaceHdr (hdrMarker ++ x) = pyReplaceHdr x := by
  rw [show hdrMarker = ['#', '#', ' '] from by decide]
  rfl

theorem extractedTitle_eq (t : Str) (h1 : pyStrip t = t)
    (h2 : pyReplaceHdr t = t) :
    pyStrip (pyReplaceHdr (hdrMarker ++ t)) = t := by
  rw [pyReplaceHdr_hdr_append, h2, h1]

theorem stripJoin_body_nil (b : Str) (hb : pyStrip b = b) :
    pyStrip (pyJoin nlStr ([] :: pySplitNL b)) = b := by
  rw [pyJoin_cons_ne_nil _ _ _ (pySplitNL_ne_nil b), pyJoin_splitNL,
    List.nil_append, show nlStr ++ b = '\n' :: b from rfl,
    pyStrip_cons_ws '\n' b (by decide), hb]

theorem stripJoin_body_sep (b : Str) (hb : pyStrip b = b) :
    pyStrip (pyJoin nlStr (([] :: pySplitNL b) ++ [[]])) = b := by
  rw [pyStrip_join_append_empty]
  exact stripJoin_body_nil b hb

theorem bodyLines_not_header (tb : Str × Str) (hwf : SectionWF tb) :
    ∀ l ∈ ([] :: pySplitNL tb.2), hdrMarker.isPrefixOf l = false := by
  intro l hl
  rcases List.mem_cons.1 hl with rfl | hl
  · decide
  · exact hwf.2.2.2.2 l hl

theorem extractGo_restLines :
    ∀ (group : List (Str × Str)) (tb : Str × Str), SectionWF tb →
    (∀ x ∈ group, SectionWF x) →
    extractSectionsGo (some tb.1) [] (restLinesOf tb group) = tb :: group := by
  intro group
  induction group with
  | nil =>
    intro tb hwf _
    rw [restLinesOf,
      show ([] :: pySplitNL tb.2) = ([] :: pySplitNL tb.2) ++ [] from by simp,
      extractGo_body _ (bodyLines_not_header tb hwf) (some tb.1) [] [],
      List.nil_append]
    show [(tb.1, pyStrip (pyJoin nlStr ([] :: pySplitNL tb.2)))] = [tb]
    rw [stripJoin_body_nil tb.2 hwf.2.2.2.1, Prod.mk.eta]
  | cons tb2 rest2 ih =>
    intro tb hwf hwfs
    have hb : ∀ l ∈ (([] :: pySplitNL tb.2) ++ [[]]),
        hdrMarker.isPrefixOf l = false := by
      intro l hl
      rcases List.mem_append.1 hl with h | h
      · exact bodyLines_not_header tb hwf l h
      · simp only [List.mem_singleton] at h
        subst h
        decide
    have hwf2 := hwfs tb2 (List.mem_cons_self _ _)
    rw [restLinesOf,
      extractGo_body _ hb (some tb.1) [] (chunkLines (tb2 :: rest2)),
      List.nil_append, chunkLines_cons,
      extractGo_step_header_some _ _ _ _ (hdrMarker_isPrefixOf_append tb2.1),
      extractedTitle_eq tb2.1 hwf2.1 hwf2.2.1,
      stripJoin_body_sep tb.2 hwf.2.2.2.1,
      ih tb2 hwf2 (fun x hx => hwfs x (List.mem_cons_of_mem _ hx)),
      Prod.mk.eta]

theorem extract_buildSectionChunk (group : List (Str × Str))
    (hne : group ≠ []) (hwf : ∀ tb ∈ group, SectionWF tb) :
    extract_sections (buildSectionChunk group).2 = group := by
  obtain ⟨tb, rest, rfl⟩ : ∃ x xs, group = x :: xs := by
    cases group with
    | nil => exact absurd rfl hne
    | cons x xs => exact ⟨x, xs, rfl⟩
  have hwf1 := hwf tb (List.mem_cons_self _ _)
  rw [show (buildSectionChunk (tb :: rest)).2
      = pyJoin nnStr ((tb :: rest).map sectionText) from rfl,
    extract_sections_eq_go,
    pySplitNL_chunkText _ (List.cons_ne_nil _ _)
      (fun x hx => (hwf x hx).2.2.1),
    chunkLines_cons,
    extractGo_step_header_none _ _ _ (hdrMarker_isPrefixOf_append tb.1),
    extractedTitle_eq tb.1 hwf1.1 hwf1.2.1]
  exact extractGo_restLines rest tb hwf1
    (fun x hx => hwf x (List.mem_cons_of_mem _ hx))

theorem sectionChunkSize_pos (sections : List (Str × Str)) (maxS : Nat) :
    1 ≤ sectionChunkSize sections maxS := by
  rw [sectionChunkSize]
  split
  · exact Nat.le_refl 1
  · exact Nat.le_max_left 1 _

theorem applyMinMaxStoryboards_id (sb : List (Str × Str)) (minS maxS : Nat)
    (hmin : minS ≤ sb.length) (hmax : sb.length ≤ maxS) :
    applyMinMaxStoryboards sb minS maxS = sb := by
  rw [applyMinMaxStoryboards, if_neg (by omega), if_neg (by omega)]

/-- C5 (amended).  When the initial grouping over section headers lands
inside the configured [min, max] band (no re-bisection, no truncation),
and every extracted section is well formed (stripped title without `## `
or newline, stripped body none of whose lines begins with `## ` — the
shape `extract_sections` itself produces on ordinary scenes), the
concatenation of the chunk texts, after re-extracting the re-inserted
`## ` headers, reproduces every section — in particular every section
body — exactly once and in order.  Outside the band trailing sections are
dropped by the truncation (see the counterexample). -/
theorem C5_bodies_preserved_in_band (scene : Str) (minS maxS : Nat)
    (hsec : extract_sections scene ≠ [])
    (hwf : ∀ tb ∈ extract_sections scene, SectionWF tb)
    (hmin : minS ≤ (sectionStoryboards (extract_sections scene) maxS).length)
    (hmax : (sectionStoryboards (extract_sections scene) maxS).length ≤ maxS) :
    ((divide_scene_into_storyboards scene minS maxS).map
        (fun c => extract_sections c.2)).flatten = extract_sections scene ∧
    ((divide_scene_into_storyboards scene minS maxS).map
        (fun c => (extract_sections c.2).map Prod.snd)).flatten
      = (extract_sections scene).map Prod.snd := by
  have hdiv : divide_scene_into_storyboards scene minS maxS
      = sectionStoryboards (extract_sections scene) maxS := by
    rw [divide_scene_into_storyboards, if_pos hsec,
      applyMinMaxStoryboards_id _ _ _ hmin hmax]
  have hpairs : ((divide_scene_into_storyboards scene minS maxS).map
      (fun c => extract_sections c.2)).flatten = extract_sections scene := by
    rw [hdiv, sectionStoryboards, List.map_map]
    have hcongr : ∀ g ∈ chunksOf
        (sectionChunkSize (extract_sections scene) maxS)
        (extract_sections scene),
        ((fun c => extract_sections c.2) ∘ buildSectionChunk) g = id g := by
      intro g hg
      have hgne : g ≠ [] :=
        chunksOf_mem_ne_nil _ (sectionChunkSize_pos _ _) _ _
          (Nat.le_refl _) g hg
      have hsub : ∀ tb ∈ g, tb ∈ extract_sections scene := by
        intro tb htb
        have hfl := chunksOf_flatten
          (sectionChunkSize (extract_sections scene) maxS)
          (sectionChunkSize_pos _ _) (extract_sections scene).length
          (extract_sections scene) (Nat.le_refl _)
        rw [← hfl]
        exact List.mem_flatten.2 ⟨g, hg, htb⟩
      exact extract_buildSectionChunk g hgne
        (fun tb htb => hwf tb (hsub tb htb))
    rw [List.map_congr_left hcongr, List.map_id]
    exact chunksOf_flatten _ (sectionChunkSize_pos _ _) _ _ (Nat.le_refl _)
  refine ⟨hpairs, ?_⟩
  have hmapped := congrArg (List.map Prod.snd) hpairs
  rw [List.map_flatten, List.map_map] at hmapped
  exact hmapped

/-- C5 (witness): a five-section scene at the default band round-trips. -/
theorem C5_witness :
    ((divide_scene_into_storyboards c5GoodScene 4 6).map
        (fun c => extract_sections c.2)).flatten
      = extract_sections c5GoodScene ∧
    ((divide_scene_into_storyboards c5GoodScene 4 6).map
        (fun c => (extract_sections c.2).map Prod.snd)).flatten
      = (extract_sections c5GoodScene).map Prod.snd :=
  C5_bodies_preserved_in_band c5GoodScene 4 6 (by decide) (by decide)
    (by decide) (by decide)

/-- C5 (counterexample).  The thirteen-section scene groups into seven
chunks; the code truncates to six, so the thirteenth section's body `B13`
is absent from the concatenated chunk texts: the claimed lossless
reproduction fails whenever the truncation fires (its lossy nature is
explicit in the source). -/
theorem C5_counterexample :
    (S ("B13")) ∈ (extract_sections c5Scene).map Prod.snd ∧
    ((divide_scene_into_storyboards c5Scene 4 6).map
        (fun c => (extract_sections c.2).map Prod.snd)).flatten
      ≠ (extract_sections c5Scene).map Prod.snd ∧
    (S ("B13")) ∉ ((divide_scene_into_storyboards c5Scene 4 6).map
        (fun c => (extract_sections c.2).map Prod.snd)).flatten := by
  refine ⟨by decide, by decide, by decide⟩

/-- Skipping a block of 429 outcomes advances the retry loop, sleeping the
prescribed back-off delay at each attempt. -/
theorem callGeminiGo_skip (responses : Nat → ApiOutcome) (base : ℚ) :
    ∀ (n attempt remaining : Nat) (delays : List ℚ),
    (∀ j, attempt ≤ j → j < attempt + n →
      ∃ ra, responses j = ApiOutcome.httpError 429 ra) →
    n ≤ remaining →
    callGeminiGo responses base remaining attempt delays =
      callGeminiGo responses base (remaining - n) (attempt + n)
        (((List.range' attempt n).map
            (fun i => outcomeBackoff (responses i) base i)).reverse ++ delays) := by
  intro n
  induction n with
  | zero =>
    intro attempt remaining delays _ _
    simp
  | succ m ih =>
    intro attempt remaining delays h429 hle
    obtain ⟨ra, hra⟩ := h429 attempt (Nat.le_refl _) (by omega)
    obtain ⟨r, rfl⟩ : ∃ r, remaining = r + 1 :=
      ⟨remaining - 1, by omega⟩
    have hstep : callGeminiGo responses base (r + 1) attempt delays =
        callGeminiGo responses base r (attempt + 1)
          (backoffDelay ra base attempt :: delays) := by
      rw [callGeminiGo]
      simp [hra]
    rw [hstep,
      ih (attempt + 1) r (backoffDelay ra base attempt :: delays)
        (fun j hj1 hj2 => h429 j (by omega) (by omega)) (by omega)]
    have harr : (List.range' attempt (m + 1)).map
        (fun i => outcomeBackoff (responses i) base i)
        = outcomeBackoff (responses attempt) base attempt ::
          (List.range' (attempt + 1) m).map
            (fun i => outcomeBackoff (responses i) base i) := by
      rw [List.range'_succ]
      simp
    rw [harr]
    have hob : outcomeBackoff (responses attempt) base attempt
        = backoffDelay ra base attempt := by
      rw [hra]
      rfl
    rw [hob]
    simp only [List.reverse_cons, List.append_assoc, List.singleton_append]
    have h1 : attempt + 1 + m = attempt + (m + 1) := by omega
    have h2 : r - m = r + 1 - (m + 1) := by omega
    rw [h1, h2]

/-- One runthrough of the per-chunk loop records exactly one outcome per
chunk: errors are caught and logged, never aborting the remaining chunks. -/
theorem runChunksLoop_length {σ α : Type} (step : σ → α → Except Nat σ) :
    ∀ (chunks : List α) (s : σ) (l : List (Option Nat)),
    (chunks.foldl (fun acc c =>
      match step acc.1 c with
      | .ok s' => (s', acc.2 ++ [none])
      | .error e => (acc.1, acc.2 ++ [some e])) (s, l)).2.length
      = l.length + chunks.length := by
  intro chunks
  induction chunks with
  | nil => intro s l; simp
  | cons c t ih =>
    intro s l
    simp only [List.foldl_cons]
    cases step s c with
    | ok s' =>
      rw [ih s' (l ++ [none])]
      simp
      omega
    | error e =>
      rw [ih s (l ++ [some e])]
      simp
      omega

/-- C7.  The retry loop of `call_gemini`: after `k` rate-limited attempts
(each slept through with the server-provided Retry-After delay when
present, else `retry_base * 2 ** attempt`), a success returns, any
non-429 HTTP error is raised immediately, and a 429 at the attempt cap
(`k = max_retries`) is raised; and the per-chunk loop of main records one
outcome per chunk — an error aborts only its own chunk, processing
continues with the next. -/
theorem C7_retry_and_backoff (responses : Nat → ApiOutcome)
    (maxRetries : Nat) (base : ℚ) (k : Nat)
    (h429 : ∀ j, j < k → ∃ ra, responses j = ApiOutcome.httpError 429 ra)
    (hk : k ≤ maxRetries) :
    (responses k = ApiOutcome.success →
       call_gemini responses maxRetries base
         = CallResult.ok k (expectedDelays responses base k)) ∧
    (∀ code ra, responses k = ApiOutcome.httpError code ra → code ≠ 429 →
       call_gemini responses maxRetries base
         = CallResult.raised code k (expectedDelays responses base k)) ∧
    (∀ ra, k = maxRetries → responses k = ApiOutcome.httpError 429 ra →
       call_gemini responses maxRetries base
         = CallResult.raised 429 k (expectedDelays responses base k)) ∧
    (∀ (σ α : Type) (step : σ → α → Except Nat σ) (init : σ)
       (chunks : List α),
       (runChunksLoop step init chunks).2.length = chunks.length) := by
  have hrun : call_gemini responses maxRetries base =
      callGeminiGo responses base (maxRetries - k) k
        ((expectedDelays responses base k).reverse) := by
    rw [call_gemini,
      callGeminiGo_skip responses base k 0 maxRetries []
        (fun j _ hj2 => h429 j (by omega)) hk]
    rw [expectedDelays, List.range_eq_range']
    simp
  refine ⟨?_, ?_, ?_, ?_⟩
  · intro hs
    rw [hrun, callGeminiGo]
    simp [hs]
  · intro code ra hr hcode
    rw [hrun, callGeminiGo]
    cases hmk : maxRetries - k with
    | zero => simp [hr]
    | succ r => simp [hr, hcode]
  · intro ra hkm hr
    rw [hrun, callGeminiGo]
    have : maxRetries - k = 0 := by omega
    simp [hr, this]
  · intro σ α step init chunks
    rw [runChunksLoop]
    rw [runChunksLoop_length step chunks init []]
    simp

/-- C7 (witness): with two rate limits (the second carrying Retry-After 7)
followed by a server error, the error at attempt 2 is raised immediately
after sleeping 5 and 7 seconds, and the outer loop records one outcome per
chunk. -/
theorem C7_witness :
    (c7Responses 2 = ApiOutcome.success →
       call_gemini c7Responses 5 5
         = CallResult.ok 2 (expectedDelays c7Responses 5 2)) ∧
    (∀ code ra, c7Responses 2 = ApiOutcome.httpError code ra → code ≠ 429 →
       call_gemini c7Responses 5 5
         = CallResult.raised code 2 (expectedDelays c7Responses 5 2)) ∧
    (∀ ra, 2 = 5 → c7Responses 2 = ApiOutcome.httpError 429 ra →
       call_gemini c7Responses 5 5
         = CallResult.raised 429 2 (expectedDelays c7Responses 5 2)) ∧
    (∀ (σ α : Type) (step : σ → α → Except Nat σ) (init : σ)
       (chunks : List α),
       (runChunksLoop step init chunks).2.length = chunks.length) :=
  C7_retry_and_backoff c7Responses 5 5 2
    (by
      intro j hj
      match j, hj with
      | 0, _ => exact ⟨none, rfl⟩
      | 1, _ => exact ⟨some 7, rfl⟩)
    (by omega)

/-- C8 (counterexample).  For a chunk in which Joel (a character) and the
lamp (an extra) are both detected and the same storyboard file `img.png`
is stored for both, the character branch attaches the file as an absolute
path while the extra branch attaches it relative to the output directory;
the two strings differ, so both survive de-duplication even though they
resolve to the same file on disk — refuting de-duplication "by resolved
absolute path". -/
theorem C8_counterexample :
    collectReferenceImages (fun _ => true) (S ("/w")) (S ("/w"))
        (S ("boards")) c8State none
        (detect_entities c6ChunkText c6Defs).characters
        (detect_entities c6ChunkText c6Defs).extras
        (detect_entities c6ChunkText c6Defs).settings
      = [S ("/w/boards/img.png"), S ("boards/img.png")] ∧
    pyAbspath (S ("/w")) (S ("/w/boards/img.png"))
      = pyAbspath (S ("/w")) (S ("boards/img.png")) := by
  constructor
  · decide
  · decide

end StoryPipeline
